import Mathlib

/-!
Verification of the SAP Implementation Factory orchestration pipeline.

This file gives a shallow embedding, in Lean 4, of the core pipeline of the
repository (configuration parser, execution planner, job executor, job
handlers, adapter pool) and proves the specification claims about it.

Modelling conventions:
* Python dictionaries become association lists (`List (String × _)`), with
  dict insertion (`dictSet`) overwriting an existing key in place.
* External collaborators (the SAP adapter and the storage manager) are
  modelled as oracle functions passed in as parameters, matching the spec,
  which specifies them only through their interfaces.
* A Python exception escaping a call is modelled as `Except.error msg`.
* Timestamps, durations and floating-point KPI fields (success rate,
  cost-savings percentage) are omitted from the embedded records: no claim
  refers to them, and wall-clock time is not representable in a shallow
  embedding.  All fields used by any claim are embedded faithfully.
-/

set_option autoImplicit false

namespace SAPFactory

/-- Status of an individual job (models.py `JobStatus`). -/
inductive JobStatus where
  | pending
  | running
  | completed
  | failed
  | skipped
deriving DecidableEq, Repr

/-- Overall status of an implementation run (models.py `RunStatus`). -/
inductive RunStatus where
  | created
  | planning
  | executing
  | completed
  | failed
deriving DecidableEq, Repr

/-- Types of jobs (models.py `JobType`). -/
inductive JobType where
  | customizing
  | migration
  | testing
deriving DecidableEq, Repr

/-- A YAML value as returned by `yaml.safe_load` (strings, numbers, booleans,
null, sequences and mappings).  Mappings are association lists with string
keys, as produced for the configuration documents this parser accepts. -/
inductive Yaml where
  | yStr (s : String)
  | yInt (n : Int)
  | yBool (b : Bool)
  | yNull
  | yList (xs : List Yaml)
  | yMap (kvs : List (String × Yaml))

/-- SAP system entry of the landscape (models.py `SystemConfig`):
`id` and `client` are required, `description` is optional. -/
structure SystemConfig where
  id : String
  client : String
  description : Option String := none

/-- models.py `LandscapeConfig`: list of systems, defaulting to empty. -/
structure LandscapeConfig where
  systems : List SystemConfig := []

/-- models.py `CompanyCodeConfig`. -/
structure CompanyCodeConfig where
  code : String
  currency : String := "EUR"
  name : Option String := none
  country : Option String := none

/-- models.py `PlantConfig`. -/
structure PlantConfig where
  code : String
  name : Option String := none
  company_code : Option String := none

/-- models.py `OrgConfig`. -/
structure OrgConfig where
  company_codes : List CompanyCodeConfig := []
  plants : List PlantConfig := []

/-- models.py `ScopeConfig` with its declared defaults. -/
structure ScopeConfig where
  country : List String := ["DE"]
  modules : List String := ["FI", "MM"]
  org : OrgConfig := {}

/-- models.py `CustomizingStep`: `action` is required, the remaining fields
are optional.  The `key`/`values`/`params` payloads are arbitrary mappings. -/
structure CustomizingStep where
  action : String
  table : Option String := none
  key : Option (List (String × Yaml)) := none
  values : Option (List (String × Yaml)) := none
  bapi : Option String := none
  params : Option (List (String × Yaml)) := none

/-- models.py `CustomizingPackage`. -/
structure CustomizingPackage where
  id : String
  target : String := "DEV"
  description : Option String := none
  steps : List CustomizingStep := []

/-- models.py `CustomizingConfig`. -/
structure CustomizingConfig where
  packages : List CustomizingPackage := []

/-- models.py `MigrationObject`. -/
structure MigrationObject where
  id : String
  source : String := "csv"
  target : String := "DEV"
  mapping : List (String × String) := []
  validation_rules : Option (List String) := none
  batch_size : Int := 1000

/-- models.py `MigrationConfig`. -/
structure MigrationConfig where
  objects : List MigrationObject := []

/-- models.py `TestCase`. -/
structure TestCase where
  id : String
  type : String := "api"
  endpoint : Option String := none
  method : Option String := some "GET"
  expected_status : Option Int := none
  expected_data : Option (List (String × Yaml)) := none
  description : Option String := none

/-- models.py `TestSuite`. -/
structure TestSuite where
  id : String
  target : String := "DEV"
  description : Option String := none
  cases : List TestCase := []

/-- models.py `TestingConfig`. -/
structure TestingConfig where
  suites : List TestSuite := []

/-- models.py `ProjectConfig`. -/
structure ProjectConfig where
  name : String
  customer : String
  template : Option String := some "STANDARD"
  version : Option String := some "1.0.0"

/-- models.py `ImplementationModel`: the validated project model. -/
structure ImplementationModel where
  project : ProjectConfig
  landscape : LandscapeConfig := {}
  scope : ScopeConfig := {}
  customizing : CustomizingConfig := {}
  migration : MigrationConfig := {}
  testing : TestingConfig := {}

/-- The phase-specific configuration payload of a job.  In the source this is
a `Dict[str, Any]` that the planner fills with exactly the fields of the
corresponding package / migration object / test suite, so it is modelled as
the object itself. -/
inductive JobConfig where
  | cust (p : CustomizingPackage)
  | migr (o : MigrationObject)
  | test (s : TestSuite)

/-- models.py `JobDefinition` (the `id` is generated by the planner). -/
structure JobDefinition where
  id : String
  type : JobType
  name : String
  target_system : String
  config : JobConfig
  dependencies : List String

/-- models.py `ExecutionPlan` (`created_at` omitted: wall-clock time). -/
structure ExecutionPlan where
  run_id : String
  jobs : List JobDefinition
  total_jobs : Nat
  estimated_duration_minutes : Int

/-- models.py `JobResult` (timestamps, float duration, KPI dict and log list
omitted; all counter / status / message fields are embedded). -/
structure JobResult where
  job_id : String
  job_type : JobType
  job_name : String
  status : JobStatus
  records_processed : Nat := 0
  records_success : Nat := 0
  records_failed : Nat := 0
  error_message : Option String := none
  artifacts : List String := []
deriving DecidableEq

/-- models.py `RunSummary` (timestamps and float KPI fields omitted). -/
structure RunSummary where
  run_id : String
  project_name : String
  customer : String
  status : RunStatus
  total_jobs : Nat := 0
  completed_jobs : Nat := 0
  failed_jobs : Nat := 0
  skipped_jobs : Nat := 0
  total_records : Nat := 0
  success_records : Nat := 0
  failed_records : Nat := 0
  job_results : List JobResult := []
  artifacts : List String := []

/-! ## Configuration parser (app/engine/parser.py)

The raw document is modelled at the point where `yaml.safe_load` has been
applied: `RawDoc.syntaxError` stands for a `yaml.YAMLError` being raised,
`RawDoc.doc v` for a successfully loaded value (Python `None` is `yNull`).
Schema validation (`_transform_to_model`, delegated to Pydantic in the
source) is embedded from the field declarations in models.py: required
fields must be present with the declared shape, declared defaults apply
when a field is absent, and every failing field of a section contributes
one message (Pydantic's message/location rendering is simplified to
`field: message`).  A non-mapping optional section is modelled as a schema
error for that section. -/

/-- Outcome of `yaml.safe_load` on the raw document: either a raised
`yaml.YAMLError` carrying its message, or a loaded value. -/
inductive RawDoc where
  | syntaxError (msg : String)
  | doc (v : Yaml)

/-- Single quotes around a string, as in the source's f-string messages. -/
def squote (s : String) : String := "\x27" ++ s ++ "\x27"

/-- Dictionary lookup on a YAML mapping. -/
def lookupY (kvs : List (String × Yaml)) (k : String) : Option Yaml :=
  (kvs.find? (fun p => p.1 == k)).map (·.2)

/-- parser.py `ParserError`: a message plus a (possibly empty) error list;
`errors` defaults to the empty list when the raise site passes none. -/
structure ParserError where
  message : String
  errors : List String := []

/-- parser.py `_parse_yaml`: reject syntax errors, `None` documents and
non-mapping top levels; each of these raise sites passes no error list. -/
def parseYamlDoc (d : RawDoc) : Except ParserError (List (String × Yaml)) :=
  match d with
  | .syntaxError m => .error { message := "YAML syntax error: " ++ m }
  | .doc .yNull => .error { message := "Empty configuration" }
  | .doc (.yMap kvs) => .ok kvs
  | .doc _ => .error { message := "Configuration must be a YAML mapping/dictionary" }

/-- `_validate_structure`, required-sections loop (`REQUIRED_SECTIONS = ["project"]`). -/
def requiredSectionErrors (kvs : List (String × Yaml)) : List String :=
  match lookupY kvs "project" with
  | none => ["Missing required section: " ++ squote "project"]
  | some (.yMap _) => []
  | some _ => ["Section " ++ squote "project" ++ " must be a mapping"]

/-- `_validate_structure`, project-section field presence checks. -/
def projectFieldErrors (kvs : List (String × Yaml)) : List String :=
  match lookupY kvs "project" with
  | some (.yMap p) =>
      (if (lookupY p "name").isNone then ["project.name is required"] else []) ++
      (if (lookupY p "customer").isNone then ["project.customer is required"] else [])
  | _ => []

/-- `_validate_structure`, per-entry check of `landscape.systems[i]`. -/
def systemEntryErrors (i : Nat) (y : Yaml) : List String :=
  match y with
  | .yMap m =>
      if (lookupY m "id").isNone then
        ["landscape.systems[" ++ toString i ++ "].id is required"]
      else []
  | _ => ["landscape.systems[" ++ toString i ++ "] must be a mapping"]

/-- `_validate_structure`, landscape-section check. -/
def landscapeStructErrors (kvs : List (String × Yaml)) : List String :=
  match lookupY kvs "landscape" with
  | some (.yMap l) =>
      match (lookupY l "systems").getD (.yList []) with
      | .yList systems => (systems.enum.map (fun p => systemEntryErrors p.1 p.2)).flatten
      | _ => ["landscape.systems must be a list"]
  | _ => []

/-- `_validate_structure`, per-entry check of `customizing.packages[i]`. -/
def packageEntryErrors (i : Nat) (y : Yaml) : List String :=
  match y with
  | .yMap m =>
      if (lookupY m "id").isNone then
        ["customizing.packages[" ++ toString i ++ "].id is required"]
      else []
  | _ => ["customizing.packages[" ++ toString i ++ "] must be a mapping"]

/-- `_validate_structure`, customizing-section check. -/
def customizingStructErrors (kvs : List (String × Yaml)) : List String :=
  match lookupY kvs "customizing" with
  | some (.yMap c) =>
      match (lookupY c "packages").getD (.yList []) with
      | .yList packages => (packages.enum.map (fun p => packageEntryErrors p.1 p.2)).flatten
      | _ => ["customizing.packages must be a list"]
  | _ => []

/-- `_validate_structure`, migration-section check (list shape only). -/
def migrationStructErrors (kvs : List (String × Yaml)) : List String :=
  match lookupY kvs "migration" with
  | some (.yMap c) =>
      match (lookupY c "objects").getD (.yList []) with
      | .yList _ => []
      | _ => ["migration.objects must be a list"]
  | _ => []

/-- `_validate_structure`, testing-section check (list shape only). -/
def testingStructErrors (kvs : List (String × Yaml)) : List String :=
  match lookupY kvs "testing" with
  | some (.yMap c) =>
      match (lookupY c "suites").getD (.yList []) with
      | .yList _ => []
      | _ => ["testing.suites must be a list"]
  | _ => []

/-- parser.py `_validate_structure`: all section checks, in source order. -/
def validateStructure (kvs : List (String × Yaml)) : List String :=
  requiredSectionErrors kvs ++ projectFieldErrors kvs ++ landscapeStructErrors kvs ++
    customizingStructErrors kvs ++ migrationStructErrors kvs ++ testingStructErrors kvs

/-- Schema check for a required `str` field. -/
def fieldStrReq (m : List (String × Yaml)) (k : String) : List String × String :=
  match lookupY m k with
  | some (.yStr s) => ([], s)
  | some _ => ([k ++ ": Input should be a valid string"], "")
  | none => ([k ++ ": Field required"], "")

/-- Schema check for a `str` field with a declared default. -/
def fieldStrD (m : List (String × Yaml)) (k : String) (dflt : String) : List String × String :=
  match lookupY m k with
  | none => ([], dflt)
  | some (.yStr s) => ([], s)
  | some _ => ([k ++ ": Input should be a valid string"], dflt)

/-- Schema check for an `Optional[str]` field with a declared default. -/
def fieldStrOpt (m : List (String × Yaml)) (k : String) (dflt : Option String) :
    List String × Option String :=
  match lookupY m k with
  | none => ([], dflt)
  | some .yNull => ([], none)
  | some (.yStr s) => ([], some s)
  | some _ => ([k ++ ": Input should be a valid string"], dflt)

/-- Schema check for an optional mapping-valued (`Dict[str, Any]`) field. -/
def fieldMapOpt (m : List (String × Yaml)) (k : String) :
    List String × Option (List (String × Yaml)) :=
  match lookupY m k with
  | none => ([], none)
  | some .yNull => ([], none)
  | some (.yMap mm) => ([], some mm)
  | some _ => ([k ++ ": Input should be a valid dictionary"], none)

/-- Schema check for an `Optional[int]` field. -/
def fieldIntOpt (m : List (String × Yaml)) (k : String) : List String × Option Int :=
  match lookupY m k with
  | none => ([], none)
  | some .yNull => ([], none)
  | some (.yInt n) => ([], some n)
  | some _ => ([k ++ ": Input should be a valid integer"], none)

/-- Schema check for an `int` field with a declared default. -/
def fieldIntD (m : List (String × Yaml)) (k : String) (dflt : Int) : List String × Int :=
  match lookupY m k with
  | none => ([], dflt)
  | some (.yInt n) => ([], n)
  | some _ => ([k ++ ": Input should be a valid integer"], dflt)

/-- Schema check for a `List[str]` field with a declared default. -/
def fieldStrListD (m : List (String × Yaml)) (k : String) (dflt : List String) :
    List String × List String :=
  match lookupY m k with
  | none => ([], dflt)
  | some (.yList xs) =>
      let parsed := xs.map (fun y => match y with
        | .yStr s => Except.ok s
        | _ => Except.error (k ++ ": Input should be a valid string"))
      match parsed.filterMap (fun e => match e with | .error s => some s | .ok _ => none) with
      | [] => ([], parsed.filterMap (fun e => match e with | .ok s => some s | .error _ => none))
      | es => (es, dflt)
  | some _ => ([k ++ ": Input should be a valid list"], dflt)

/-- Schema check for an `Optional[List[str]]` field. -/
def fieldStrListOpt (m : List (String × Yaml)) (k : String) :
    List String × Option (List String) :=
  match lookupY m k with
  | none => ([], none)
  | some .yNull => ([], none)
  | some (.yList xs) =>
      match fieldStrListD [(k, .yList xs)] k [] with
      | ([], ss) => ([], some ss)
      | (es, _) => (es, none)
  | some _ => ([k ++ ": Input should be a valid list"], none)

/-- Schema check for a `Dict[str, str]` field with default `{}`. -/
def fieldStrDictD (m : List (String × Yaml)) (k : String) :
    List String × List (String × String) :=
  match lookupY m k with
  | none => ([], [])
  | some (.yMap mm) =>
      let bad := mm.filterMap (fun p => match p.2 with
        | .yStr _ => none
        | _ => some (k ++ "." ++ p.1 ++ ": Input should be a valid string"))
      if bad.isEmpty then
        ([], mm.filterMap (fun p => match p.2 with | .yStr s => some (p.1, s) | _ => none))
      else (bad, [])
  | some _ => ([k ++ ": Input should be a valid dictionary"], [])

/-- Collect a list of sub-results, concatenating every error list (Pydantic
reports all failing entries of a collection together). -/
def collectEx {α : Type} : List (Except (List String) α) → Except (List String) (List α)
  | [] => .ok []
  | .ok a :: rest =>
      match collectEx rest with
      | .ok as => .ok (a :: as)
      | .error es => .error es
  | .error e :: rest =>
      match collectEx rest with
      | .ok _ => .error e
      | .error es => .error (e ++ es)

/-- The Python type name of a YAML value, as it appears in the
interpreter-generated `TypeError` message for `Model(**value)`. -/
def pyTypeName : Yaml → String
  | .yStr _ => "str"
  | .yInt _ => "int"
  | .yBool _ => "bool"
  | .yNull => "NoneType"
  | .yList _ => "list"
  | .yMap _ => "dict"

/-- Outcome of one top-level `Model(**value)` call in
`_transform_to_model` (parser.py:206-216): `validation` is a Pydantic
`ValidationError` carrying field messages (caught by
`except ValidationError` at parser.py:83 and rewrapped); `typeError` is
the `TypeError` the interpreter raises before Pydantic even runs when
`value` is not a mapping (`**`-unpacking a str/list/int/bool/None).  That
exception class is not caught anywhere in `parse`, so it escapes with
only the interpreter message and no error list; the string here stands
for that message. -/
inductive ModelError where
  | validation (errs : List String)
  | typeError (msg : String)

/-- A failure escaping `ConfigParser.parse`: either the `ParserError` one
of the four stages raises, or an uncaught `TypeError` from
`_transform_to_model` (see `ModelError.typeError`). -/
inductive ParseFailure where
  | perr (e : ParserError)
  | typeError (msg : String)

/-- Schema validation of one `landscape.systems` entry (models.py `SystemConfig`). -/
def parseSystemConfig (i : Nat) (y : Yaml) : Except (List String) SystemConfig :=
  match y with
  | .yMap m =>
      let idF := fieldStrReq m "id"
      let clF := fieldStrReq m "client"
      let dF := fieldStrOpt m "description" none
      let errs := (idF.1 ++ clF.1 ++ dF.1).map (fun e => "systems." ++ toString i ++ "." ++ e)
      if errs.isEmpty then .ok { id := idF.2, client := clF.2, description := dF.2 }
      else .error errs
  | _ => .error ["systems." ++ toString i ++ ": Input should be a mapping"]

/-- `LandscapeConfig(**value)` (parser.py:210, models.py `LandscapeConfig`):
Pydantic validation when `value` is a mapping; the interpreter's
`TypeError` otherwise (the landscape section is never shape-checked by
`_validate_structure` when it is not a dict, so this path is live). -/
def parseLandscapeConfig (y : Yaml) : Except ModelError LandscapeConfig :=
  match y with
  | .yMap m =>
      match lookupY m "systems" with
      | none => .ok {}
      | some (.yList xs) =>
          match collectEx (xs.enum.map (fun p => parseSystemConfig p.1 p.2)) with
          | .ok ss => .ok { systems := ss }
          | .error es => .error (.validation es)
      | some _ => .error (.validation ["systems: Input should be a valid list"])
  | _ => .error (.typeError ("LandscapeConfig() argument after ** must be a mapping, not "
      ++ pyTypeName y))

/-- Schema validation of one company code (models.py `CompanyCodeConfig`). -/
def parseCompanyCode (i : Nat) (y : Yaml) : Except (List String) CompanyCodeConfig :=
  match y with
  | .yMap m =>
      let codeF := fieldStrReq m "code"
      let curF := fieldStrD m "currency" "EUR"
      let nameF := fieldStrOpt m "name" none
      let ctryF := fieldStrOpt m "country" none
      let errs := (codeF.1 ++ curF.1 ++ nameF.1 ++ ctryF.1).map
        (fun e => "org.company_codes." ++ toString i ++ "." ++ e)
      if errs.isEmpty then
        .ok { code := codeF.2, currency := curF.2, name := nameF.2, country := ctryF.2 }
      else .error errs
  | _ => .error ["org.company_codes." ++ toString i ++ ": Input should be a mapping"]

/-- Schema validation of one plant (models.py `PlantConfig`). -/
def parsePlant (i : Nat) (y : Yaml) : Except (List String) PlantConfig :=
  match y with
  | .yMap m =>
      let codeF := fieldStrReq m "code"
      let nameF := fieldStrOpt m "name" none
      let ccF := fieldStrOpt m "company_code" none
      let errs := (codeF.1 ++ nameF.1 ++ ccF.1).map
        (fun e => "org.plants." ++ toString i ++ "." ++ e)
      if errs.isEmpty then .ok { code := codeF.2, name := nameF.2, company_code := ccF.2 }
      else .error errs
  | _ => .error ["org.plants." ++ toString i ++ ": Input should be a mapping"]

/-- Schema validation of the `scope.org` subsection (models.py `OrgConfig`). -/
def parseOrgConfig (y : Yaml) : Except (List String) OrgConfig :=
  match y with
  | .yMap m =>
      let ccs : Except (List String) (List CompanyCodeConfig) :=
        match lookupY m "company_codes" with
        | none => .ok []
        | some (.yList xs) => collectEx (xs.enum.map (fun p => parseCompanyCode p.1 p.2))
        | some _ => .error ["org.company_codes: Input should be a valid list"]
      let pls : Except (List String) (List PlantConfig) :=
        match lookupY m "plants" with
        | none => .ok []
        | some (.yList xs) => collectEx (xs.enum.map (fun p => parsePlant p.1 p.2))
        | some _ => .error ["org.plants: Input should be a valid list"]
      match ccs, pls with
      | .ok a, .ok b => .ok { company_codes := a, plants := b }
      | .error e, .ok _ => .error e
      | .ok _, .error e => .error e
      | .error e, .error e' => .error (e ++ e')
  | _ => .error ["org: Input should be a mapping"]

/-- `ScopeConfig(**value)` (parser.py:211, models.py `ScopeConfig`):
Pydantic validation when `value` is a mapping; the interpreter's
`TypeError` otherwise (the scope section is never checked by
`_validate_structure` at all, so this path is live). -/
def parseScopeConfig (y : Yaml) : Except ModelError ScopeConfig :=
  match y with
  | .yMap m =>
      let ctryF := fieldStrListD m "country" ["DE"]
      let modF := fieldStrListD m "modules" ["FI", "MM"]
      let orgE :=
        match lookupY m "org" with
        | none => Except.ok ({} : OrgConfig)
        | some o => parseOrgConfig o
      match orgE with
      | .ok org =>
          if (ctryF.1 ++ modF.1).isEmpty then
            .ok { country := ctryF.2, modules := modF.2, org := org }
          else .error (.validation (ctryF.1 ++ modF.1))
      | .error es => .error (.validation (ctryF.1 ++ modF.1 ++ es))
  | _ => .error (.typeError ("ScopeConfig() argument after ** must be a mapping, not "
      ++ pyTypeName y))

/-- Schema validation of one customizing step (models.py `CustomizingStep`). -/
def parseCustomizingStep (i : Nat) (y : Yaml) : Except (List String) CustomizingStep :=
  match y with
  | .yMap m =>
      let actF := fieldStrReq m "action"
      let tblF := fieldStrOpt m "table" none
      let keyF := fieldMapOpt m "key"
      let valF := fieldMapOpt m "values"
      let bapiF := fieldStrOpt m "bapi" none
      let parF := fieldMapOpt m "params"
      let errs := (actF.1 ++ tblF.1 ++ keyF.1 ++ valF.1 ++ bapiF.1 ++ parF.1).map
        (fun e => "steps." ++ toString i ++ "." ++ e)
      if errs.isEmpty then
        .ok { action := actF.2, table := tblF.2, key := keyF.2, values := valF.2,
              bapi := bapiF.2, params := parF.2 }
      else .error errs
  | _ => .error ["steps." ++ toString i ++ ": Input should be a mapping"]

/-- Schema validation of one customizing package (models.py `CustomizingPackage`). -/
def parseCustomizingPackage (i : Nat) (y : Yaml) : Except (List String) CustomizingPackage :=
  match y with
  | .yMap m =>
      let idF := fieldStrReq m "id"
      let tgtF := fieldStrD m "target" "DEV"
      let dF := fieldStrOpt m "description" none
      let stepsE : Except (List String) (List CustomizingStep) :=
        match lookupY m "steps" with
        | none => .ok []
        | some (.yList xs) => collectEx (xs.enum.map (fun p => parseCustomizingStep p.1 p.2))
        | some _ => .error ["steps: Input should be a valid list"]
      let fieldErrs := (idF.1 ++ tgtF.1 ++ dF.1).map
        (fun e => "packages." ++ toString i ++ "." ++ e)
      match stepsE with
      | .ok steps =>
          if fieldErrs.isEmpty then
            .ok { id := idF.2, target := tgtF.2, description := dF.2, steps := steps }
          else .error fieldErrs
      | .error es =>
          .error (fieldErrs ++ es.map (fun e => "packages." ++ toString i ++ "." ++ e))
  | _ => .error ["packages." ++ toString i ++ ": Input should be a mapping"]

/-- `CustomizingConfig(**value)` (parser.py:212, models.py
`CustomizingConfig`): Pydantic validation when `value` is a mapping; the
interpreter's `TypeError` otherwise (no `_validate_structure` shape check
fires for a non-dict customizing section). -/
def parseCustomizingConfig (y : Yaml) : Except ModelError CustomizingConfig :=
  match y with
  | .yMap m =>
      match lookupY m "packages" with
      | none => .ok {}
      | some (.yList xs) =>
          match collectEx (xs.enum.map (fun p => parseCustomizingPackage p.1 p.2)) with
          | .ok ps => .ok { packages := ps }
          | .error es => .error (.validation es)
      | some _ => .error (.validation ["packages: Input should be a valid list"])
  | _ => .error (.typeError ("CustomizingConfig() argument after ** must be a mapping, not "
      ++ pyTypeName y))

/-- Schema validation of one migration object (models.py `MigrationObject`). -/
def parseMigrationObject (i : Nat) (y : Yaml) : Except (List String) MigrationObject :=
  match y with
  | .yMap m =>
      let idF := fieldStrReq m "id"
      let srcF := fieldStrD m "source" "csv"
      let tgtF := fieldStrD m "target" "DEV"
      let mapF := fieldStrDictD m "mapping"
      let vrF := fieldStrListOpt m "validation_rules"
      let bsF := fieldIntD m "batch_size" 1000
      let errs := (idF.1 ++ srcF.1 ++ tgtF.1 ++ mapF.1 ++ vrF.1 ++ bsF.1).map
        (fun e => "objects." ++ toString i ++ "." ++ e)
      if errs.isEmpty then
        .ok { id := idF.2, source := srcF.2, target := tgtF.2, mapping := mapF.2,
              validation_rules := vrF.2, batch_size := bsF.2 }
      else .error errs
  | _ => .error ["objects." ++ toString i ++ ": Input should be a mapping"]

/-- `MigrationConfig(**value)` (parser.py:213, models.py
`MigrationConfig`): Pydantic validation when `value` is a mapping; the
interpreter's `TypeError` otherwise (no `_validate_structure` shape check
fires for a non-dict migration section). -/
def parseMigrationConfig (y : Yaml) : Except ModelError MigrationConfig :=
  match y with
  | .yMap m =>
      match lookupY m "objects" with
      | none => .ok {}
      | some (.yList xs) =>
          match collectEx (xs.enum.map (fun p => parseMigrationObject p.1 p.2)) with
          | .ok os => .ok { objects := os }
          | .error es => .error (.validation es)
      | some _ => .error (.validation ["objects: Input should be a valid list"])
  | _ => .error (.typeError ("MigrationConfig() argument after ** must be a mapping, not "
      ++ pyTypeName y))

/-- Schema validation of one test case (models.py `TestCase`). -/
def parseTestCase (i : Nat) (y : Yaml) : Except (List String) TestCase :=
  match y with
  | .yMap m =>
      let idF := fieldStrReq m "id"
      let tyF := fieldStrD m "type" "api"
      let epF := fieldStrOpt m "endpoint" none
      let meF := fieldStrOpt m "method" (some "GET")
      let esF := fieldIntOpt m "expected_status"
      let edF := fieldMapOpt m "expected_data"
      let dF := fieldStrOpt m "description" none
      let errs := (idF.1 ++ tyF.1 ++ epF.1 ++ meF.1 ++ esF.1 ++ edF.1 ++ dF.1).map
        (fun e => "cases." ++ toString i ++ "." ++ e)
      if errs.isEmpty then
        .ok { id := idF.2, type := tyF.2, endpoint := epF.2, method := meF.2,
              expected_status := esF.2, expected_data := edF.2, description := dF.2 }
      else .error errs
  | _ => .error ["cases." ++ toString i ++ ": Input should be a mapping"]

/-- Schema validation of one test suite (models.py `TestSuite`). -/
def parseTestSuite (i : Nat) (y : Yaml) : Except (List String) TestSuite :=
  match y with
  | .yMap m =>
      let idF := fieldStrReq m "id"
      let tgtF := fieldStrD m "target" "DEV"
      let dF := fieldStrOpt m "description" none
      let casesE : Except (List String) (List TestCase) :=
        match lookupY m "cases" with
        | none => .ok []
        | some (.yList xs) => collectEx (xs.enum.map (fun p => parseTestCase p.1 p.2))
        | some _ => .error ["cases: Input should be a valid list"]
      let fieldErrs := (idF.1 ++ tgtF.1 ++ dF.1).map
        (fun e => "suites." ++ toString i ++ "." ++ e)
      match casesE with
      | .ok cases =>
          if fieldErrs.isEmpty then
            .ok { id := idF.2, target := tgtF.2, description := dF.2, cases := cases }
          else .error fieldErrs
      | .error es =>
          .error (fieldErrs ++ es.map (fun e => "suites." ++ toString i ++ "." ++ e))
  | _ => .error ["suites." ++ toString i ++ ": Input should be a mapping"]

/-- `TestingConfig(**value)` (parser.py:214, models.py `TestingConfig`):
Pydantic validation when `value` is a mapping; the interpreter's
`TypeError` otherwise (no `_validate_structure` shape check fires for a
non-dict testing section). -/
def parseTestingConfig (y : Yaml) : Except ModelError TestingConfig :=
  match y with
  | .yMap m =>
      match lookupY m "suites" with
      | none => .ok {}
      | some (.yList xs) =>
          match collectEx (xs.enum.map (fun p => parseTestSuite p.1 p.2)) with
          | .ok ss => .ok { suites := ss }
          | .error es => .error (.validation es)
      | some _ => .error (.validation ["suites: Input should be a valid list"])
  | _ => .error (.typeError ("TestingConfig() argument after ** must be a mapping, not "
      ++ pyTypeName y))

/-- `ProjectConfig(**config["project"])` (parser.py:209, models.py
`ProjectConfig`).  The `TypeError` branch is unreachable from `parse`:
`_validate_structure` has already required the project section to be
present and a mapping by the time `_transform_to_model` runs. -/
def parseProjectConfig (y : Yaml) : Except ModelError ProjectConfig :=
  match y with
  | .yMap m =>
      let nameF := fieldStrReq m "name"
      let custF := fieldStrReq m "customer"
      let tmplF := fieldStrOpt m "template" (some "STANDARD")
      let verF := fieldStrOpt m "version" (some "1.0.0")
      let errs := nameF.1 ++ custF.1 ++ tmplF.1 ++ verF.1
      if errs.isEmpty then
        .ok { name := nameF.2, customer := custF.2, template := tmplF.2, version := verF.2 }
      else .error (.validation errs)
  | _ => .error (.typeError ("ProjectConfig() argument after ** must be a mapping, not "
      ++ pyTypeName y))

/-- parser.py `_transform_to_model`: Pydantic model construction; sections
are built in declaration order with `config.get(section, default-empty)`
(`project` via `config["project"]`, guaranteed present by the structure
stage), and the first failing constructor raises: a `ValidationError`
with its (non-empty) message list, or the interpreter's `TypeError` when
a present section value is not a mapping. -/
def transformToModel (kvs : List (String × Yaml)) : Except ModelError ImplementationModel := do
  let project ← parseProjectConfig ((lookupY kvs "project").getD (.yMap []))
  let landscape ← parseLandscapeConfig ((lookupY kvs "landscape").getD (.yMap []))
  let scope ← parseScopeConfig ((lookupY kvs "scope").getD (.yMap []))
  let customizing ← parseCustomizingConfig ((lookupY kvs "customizing").getD (.yMap []))
  let migration ← parseMigrationConfig ((lookupY kvs "migration").getD (.yMap []))
  let testing ← parseTestingConfig ((lookupY kvs "testing").getD (.yMap []))
  return { project := project, landscape := landscape, scope := scope,
           customizing := customizing, migration := migration, testing := testing }

/-- parser.py `_validate_semantics`: cross-reference checks (only when at
least one system is declared), then duplicate-id checks per phase. -/
def validateSemantics (m : ImplementationModel) : List String :=
  let systemIds := m.landscape.systems.map (·.id)
  let crossErrs :=
    if systemIds.isEmpty then []
    else
      (m.customizing.packages.filterMap (fun pkg =>
        if pkg.target ∈ systemIds then none
        else some ("Customizing package " ++ squote pkg.id ++
          " references unknown system " ++ squote pkg.target))) ++
      (m.migration.objects.filterMap (fun obj =>
        if obj.target ∈ systemIds then none
        else some ("Migration object " ++ squote obj.id ++
          " references unknown system " ++ squote obj.target))) ++
      (m.testing.suites.filterMap (fun suite =>
        if suite.target ∈ systemIds then none
        else some ("Test suite " ++ squote suite.id ++
          " references unknown system " ++ squote suite.target)))
  let pkgIds := m.customizing.packages.map (·.id)
  let objIds := m.migration.objects.map (·.id)
  let suiteIds := m.testing.suites.map (·.id)
  crossErrs ++
    (if pkgIds.Nodup then [] else ["Duplicate customizing package IDs found"]) ++
    (if objIds.Nodup then [] else ["Duplicate migration object IDs found"]) ++
    (if suiteIds.Nodup then [] else ["Duplicate test suite IDs found"])

/-- parser.py `ConfigParser.parse`: the four validation stages in strict
order, wrapping each failing stage into a `ParserError` exactly as the
corresponding raise site does — except that a `TypeError` escaping
`_transform_to_model` is not caught by `except ValidationError`
(parser.py:83) and leaves `parse` as-is, carrying no error list. -/
def parse (d : RawDoc) : Except ParseFailure ImplementationModel :=
  match parseYamlDoc d with
  | .error e => .error (.perr e)
  | .ok kvs =>
      let structErrs := validateStructure kvs
      if structErrs.isEmpty then
        match transformToModel kvs with
        | .error (.validation es) =>
            .error (.perr { message := "Model validation failed", errors := es })
        | .error (.typeError msg) => .error (.typeError msg)
        | .ok m =>
            let semErrs := validateSemantics m
            if semErrs.isEmpty then .ok m
            else .error (.perr { message := "Semantic validation failed",
                                 errors := semErrs })
      else .error (.perr { message := "Configuration validation failed",
                           errors := structErrs })

/-! ## Execution planner (app/engine/planner.py)

Job ids embed the `uuid.uuid4().hex[:6]` suffix as an abstract nonce
supply `nonce : Nat → String`, indexed by the order in which the source
draws uuids (customizing jobs first, then migration, then testing). -/

/-- planner.py `_create_customizing_jobs`: one job per package in
declaration order, each depending on the immediately preceding job
(`previous_job_id`), the first with no dependency. -/
def createCustomizingJobsAux (nonce : Nat → String) :
    Nat → Option String → List CustomizingPackage → List JobDefinition
  | _, _, [] => []
  | k, prev, p :: ps =>
      let jobId := "cust_" ++ p.id ++ "_" ++ nonce k
      let deps := match prev with | none => [] | some q => [q]
      { id := jobId, type := .customizing, name := "Customizing: " ++ p.id,
        target_system := p.target, config := .cust p, dependencies := deps } ::
        createCustomizingJobsAux nonce (k + 1) (some jobId) ps

/-- planner.py `_create_migration_jobs`: one job per object, all sharing the
full list of customizing job ids as dependencies. -/
def createMigrationJobsAux (nonce : Nat → String) (deps : List String) :
    Nat → List MigrationObject → List JobDefinition
  | _, [] => []
  | k, o :: os =>
      { id := "migr_" ++ o.id ++ "_" ++ nonce k, type := .migration,
        name := "Migration: " ++ o.id, target_system := o.target,
        config := .migr o, dependencies := deps } ::
        createMigrationJobsAux nonce deps (k + 1) os

/-- planner.py `_create_testing_jobs`: one job per suite, all sharing the
full list of migration job ids as dependencies. -/
def createTestingJobsAux (nonce : Nat → String) (deps : List String) :
    Nat → List TestSuite → List JobDefinition
  | _, [] => []
  | k, s :: ss =>
      { id := "test_" ++ s.id ++ "_" ++ nonce k, type := .testing,
        name := "Testing: " ++ s.id, target_system := s.target,
        config := .test s, dependencies := deps } ::
        createTestingJobsAux nonce deps (k + 1) ss

/-- planner.py `_estimate_duration`: base minutes per job type plus a
size-proportional share, summed, inflated by 10% and truncated to an
integer.  Python float arithmetic is modelled with exact rationals. -/
def jobEstimate (j : JobDefinition) : ℚ :=
  match j.config with
  | .cust p => 5 + (p.steps.length : ℚ) / 100
  | .migr o => 15 + (o.batch_size : ℚ) / 500
  | .test s => 10 + (s.cases.length : ℚ) / 50

/-- Total estimated duration of a job list (planner.py `_estimate_duration`). -/
def estimateDuration (jobs : List JobDefinition) : Int :=
  Rat.floor ((jobs.map jobEstimate).sum * (11 / 10))

/-- planner.py `ExecutionPlanner.create_plan`: customizing jobs, then
migration jobs depending on all customizing ids, then testing jobs
depending on all migration ids. -/
def createPlan (nonce : Nat → String) (run_id : String) (m : ImplementationModel) :
    ExecutionPlan :=
  let cj := createCustomizingJobsAux nonce 0 none m.customizing.packages
  let mj := createMigrationJobsAux nonce (cj.map (·.id)) cj.length m.migration.objects
  let tj := createTestingJobsAux nonce (mj.map (·.id)) (cj.length + mj.length)
    m.testing.suites
  let jobs := cj ++ mj ++ tj
  { run_id := run_id, jobs := jobs, total_jobs := jobs.length,
    estimated_duration_minutes := estimateDuration jobs }

/-! ### `get_job_order` (Kahn's algorithm, planner.py lines 246-276) -/

/-- Python dict assignment `d[k] = v`: overwrite in place, else append. -/
def dictSet {α : Type} (d : List (String × α)) (k : String) (v : α) :
    List (String × α) :=
  if d.any (fun p => p.1 == k) then
    d.map (fun p => if p.1 == k then (p.1, v) else p)
  else d ++ [(k, v)]

/-- `job_deps = {job.id: job.dependencies.copy() for job in plan.jobs}`. -/
def buildJobDeps (jobs : List JobDefinition) : List (String × List String) :=
  jobs.foldl (fun d j => dictSet d j.id j.dependencies) []

/-- The inner `for jid, deps in job_deps.items()` sweep of one loop
iteration: remove the popped id `j` from every dependency list, and append
to `avail` (in dict order) every key whose dependency list just became
empty and that is in neither `res` (the result incl. `j`) nor `avail`. -/
def sweep (j : String) (res : List String) :
    List (String × List String) → List String →
      List (String × List String) × List String
  | [], avail => ([], avail)
  | (k, deps) :: ps, avail =>
      if j ∈ deps then
        let deps' := deps.erase j
        let avail' := if deps' = [] ∧ k ∉ res ∧ k ∉ avail then avail ++ [k] else avail
        let r := sweep j res ps avail'
        ((k, deps') :: r.1, r.2)
      else
        let r := sweep j res ps avail
        ((k, deps) :: r.1, r.2)

/-- Total size of all dependency lists (termination measure). -/
def totalDeps (ps : List (String × List String)) : Nat :=
  (ps.map (fun p => p.2.length)).sum

theorem sweep_measure (j : String) (res : List String) :
    ∀ (ps : List (String × List String)) (avail : List String),
      totalDeps (sweep j res ps avail).1 + (sweep j res ps avail).2.length ≤
        totalDeps ps + avail.length := by
  intro ps
  induction ps with
  | nil => intro avail; simp [sweep, totalDeps]
  | cons p ps ih =>
      intro avail
      obtain ⟨k, deps⟩ := p
      by_cases hj : j ∈ deps
      · have h2 : (deps.erase j).length + 1 = deps.length :=
          List.length_erase_add_one hj
        simp only [sweep, if_pos hj]
        set A := if deps.erase j = [] ∧ k ∉ res ∧ k ∉ avail then avail ++ [k] else avail
          with hA
        have h1 := ih A
        have hb : (deps.erase j).length + A.length ≤ deps.length + avail.length := by
          by_cases hc : deps.erase j = [] ∧ k ∉ res ∧ k ∉ avail
          · rw [hA, if_pos hc, hc.1]
            simp only [List.length_nil, List.length_append, List.length_cons]
            omega
          · rw [hA, if_neg hc]
            omega
        simp only [totalDeps, List.map_cons, List.sum_cons] at h1 ⊢
        omega
      · simp only [sweep, if_neg hj]
        have h1 := ih avail
        simp only [totalDeps, List.map_cons, List.sum_cons] at h1 ⊢
        omega

/-- The `while available:` loop of planner.py `get_job_order`: pop the head
of `avail`, append it to the result, and sweep it out of the remaining
dependency lists. -/
def kahnLoop (pairs : List (String × List String)) (result : List String) :
    List String → List String
  | [] => result
  | j :: rest =>
      let res' := result ++ [j]
      let s := sweep j res' pairs rest
      kahnLoop s.1 res' s.2
termination_by avail => totalDeps pairs + avail.length
decreasing_by
  have := sweep_measure j (result ++ [j]) pairs rest
  simp only [List.length_cons]
  omega

/-- planner.py `ExecutionPlanner.get_job_order`: Kahn topological sort. -/
def getJobOrder (jobs : List JobDefinition) : List String :=
  let jobDeps := buildJobDeps jobs
  kahnLoop jobDeps [] ((jobDeps.filter (fun p => p.2.isEmpty)).map (·.1))

/-! ## Job handlers (app/plugins/base.py, customizing.py, testing.py)

The SAP adapter is an external collaborator; a handler's per-step /
per-case interaction with it (`_execute_step`, `_execute_test_case`) is
modelled by an oracle indexed by position: `Except.ok b` is a returned
step result with success flag `b`, `Except.error msg` a raised exception
(caught per step / per case by the handler's loop). -/

/-- adapters/base.py `SAPAdapter`: identity of one adapter instance
(`system_id`, `client`) plus its connection flag. -/
structure Adapter where
  system_id : String
  client : String
  connected : Bool
deriving DecidableEq, Repr

/-- A value stored in the handler context's shared key-value bag
(customizing stores success/steps, testing stores pass counts; the float
pass rate is omitted). -/
inductive SharedEntry where
  | custEntry (success : Bool) (steps_executed : Nat)
  | testEntry (passed : Nat) (failed : Nat) (total : Nat)
deriving DecidableEq, Repr

/-- plugins/base.py `PluginContext`: the execution context handed to a
handler.  `shared_state` is a dataclass field with `default_factory=dict`,
so a context built without passing it starts with an empty bag. -/
structure PluginContext where
  run_id : String
  adapter : Adapter
  artifacts_path : String
  project_name : String
  customer : String
  target_system : String
  client : String
  shared_state : List (String × SharedEntry) := []
deriving DecidableEq, Repr

/-- The step loop of customizing.py `CustomizingPlugin.execute` (lines
100-137): every step is attempted — a failing or raising step only
increments the failed counter — returning
(successful_steps, failed_steps). -/
def custStepCounts (stepRun : Nat → CustomizingStep → Except String Bool) :
    Nat → List CustomizingStep → Nat × Nat
  | _, [] => (0, 0)
  | i, st :: rest =>
      let r := custStepCounts stepRun (i + 1) rest
      match stepRun i st with
      | .ok true => (r.1 + 1, r.2)
      | .ok false => (r.1, r.2 + 1)
      | .error _ => (r.1, r.2 + 1)

/-- customizing.py `CustomizingPlugin.execute`: run all steps, derive the
package status (`COMPLETED` when no step failed, `COMPLETED` on partial
success, `FAILED` only when every step failed), store the package outcome
in the shared bag, and build the job result via `create_result`. -/
def customizingExecute (stepRun : Nat → CustomizingStep → Except String Bool)
    (context : PluginContext) (cfg : CustomizingPackage) :
    JobResult × List (String × SharedEntry) :=
  let total := cfg.steps.length
  let counts := custStepCounts stepRun 0 cfg.steps
  let status :=
    if counts.2 = 0 then JobStatus.completed
    else if 0 < counts.1 then JobStatus.completed
    else JobStatus.failed
  let shared := dictSet context.shared_state ("customizing_" ++ cfg.id)
    (SharedEntry.custEntry (counts.2 == 0) total)
  ({ job_id := "cust_" ++ cfg.id, job_type := .customizing,
     job_name := "Customizing: " ++ cfg.id, status := status,
     records_processed := total, records_success := counts.1,
     records_failed := counts.2 }, shared)

/-- The case loop of testing.py `TestingPlugin.execute` (lines 98-134):
every case is attempted independently, returning (passed, failed). -/
def testCaseCounts (caseRun : Nat → TestCase → Except String Bool) :
    Nat → List TestCase → Nat × Nat
  | _, [] => (0, 0)
  | i, tc :: rest =>
      let r := testCaseCounts caseRun (i + 1) rest
      match caseRun i tc with
      | .ok true => (r.1 + 1, r.2)
      | .ok false => (r.1, r.2 + 1)
      | .error _ => (r.1, r.2 + 1)

/-- testing.py `TestingPlugin.execute`: run all cases, derive the suite
status (`COMPLETED` when none failed, `COMPLETED` on partial success,
`FAILED` only when every case failed), store the counts in the shared bag,
and build the job result via `create_result`. -/
def testingExecute (caseRun : Nat → TestCase → Except String Bool)
    (context : PluginContext) (cfg : TestSuite) :
    JobResult × List (String × SharedEntry) :=
  let total := cfg.cases.length
  let counts := testCaseCounts caseRun 0 cfg.cases
  let status :=
    if counts.2 = 0 then JobStatus.completed
    else if 0 < counts.1 then JobStatus.completed
    else JobStatus.failed
  let shared := dictSet context.shared_state ("testing_" ++ cfg.id)
    (SharedEntry.testEntry counts.1 counts.2 total)
  ({ job_id := "test_" ++ cfg.id, job_type := .testing,
     job_name := "Testing: " ++ cfg.id, status := status,
     records_processed := total, records_success := counts.1,
     records_failed := counts.2 }, shared)

/-! ## Job executor (app/engine/executor.py) -/

/-- executor.py lines 296-301 and 355-360: resolve a system's client from
the landscape (first matching entry), defaulting to `"100"`. -/
def resolveClient (m : ImplementationModel) (system_id : String) : String :=
  ((m.landscape.systems.find? (fun s => s.id == system_id)).map (·.client)).getD "100"

/-- executor.py `_get_or_create_adapter`: return the pooled adapter when
one exists for the system id; otherwise create one (resolving the client
from the landscape), connect it, and store it under the system id. -/
def getOrCreateAdapter (m : ImplementationModel) (system_id : String)
    (pool : List (String × Adapter)) : Adapter × List (String × Adapter) :=
  match pool.find? (fun p => p.1 == system_id) with
  | some p => (p.2, pool)
  | none =>
      let adapter : Adapter :=
        { system_id := system_id, client := resolveClient m system_id, connected := true }
      (adapter, pool ++ [(system_id, adapter)])

/-- The disconnect loop of executor.py `_cleanup`: attempt to disconnect
every pooled adapter; a raised disconnect error is turned into a logged
warning and the loop continues. -/
def cleanupWarnings (disconnect : Adapter → Except String Unit) :
    List (String × Adapter) → List String
  | [] => []
  | (sysid, a) :: rest =>
      match disconnect a with
      | .ok _ => cleanupWarnings disconnect rest
      | .error e =>
          ("Error disconnecting adapter " ++ sysid ++ ": " ++ e) ::
            cleanupWarnings disconnect rest

/-- executor.py `_cleanup`: disconnect all adapters (failures only logged)
then clear the pool (`self._adapters.clear()`). -/
def cleanupPool (disconnect : Adapter → Except String Unit)
    (pool : List (String × Adapter)) : List String × List (String × Adapter) :=
  (cleanupWarnings disconnect pool, [])

/-- executor.py `_execute_job` lines 355-371: the context built for one
job.  The landscape client is resolved per job, and `shared_state` is not
passed, so it takes the dataclass default: a fresh empty bag. -/
def executorContext (run_id : String) (storagePath : String)
    (m : ImplementationModel) (job : JobDefinition) (adapter : Adapter) :
    PluginContext :=
  { run_id := run_id, adapter := adapter, artifacts_path := storagePath,
    project_name := m.project.name, customer := m.project.customer,
    target_system := job.target_system,
    client := resolveClient m job.target_system }

/-- The mutable state of the job loop in executor.py `execute` (lines
134-138), plus the ghost field `calls`, which records the indices of the
jobs for which `_execute_job` (the handler path) was actually invoked;
`calls` instruments the embedding and corresponds to no program variable. -/
structure ExecState where
  results : List JobResult
  completed : Nat
  failed : Nat
  skipped : Nat
  stop : Bool
  calls : List Nat

/-- Initial loop state: no results, all counters zero, `stop` unset. -/
def initExecState : ExecState :=
  { results := [], completed := 0, failed := 0, skipped := 0, stop := false, calls := [] }

/-- The uniform result given to a job skipped after a failure
(executor.py lines 147-153). -/
def skipResult (job : JobDefinition) : JobResult :=
  { job_id := job.id, job_type := job.type, job_name := job.name,
    status := .skipped, error_message := some "Skipped due to previous failure" }

/-- The result built in the `except` branch of the job loop
(executor.py lines 184-192). -/
def exceptionResult (job : JobDefinition) (msg : String) : JobResult :=
  { job_id := job.id, job_type := job.type, job_name := job.name,
    status := .failed, error_message := some msg }

/-- One iteration of the job loop of executor.py `execute` (lines
140-195).  `runJob i job` is the combined outcome of `_execute_job` plus
the artifact save: `.ok r` a returned job result, `.error msg` a raised
exception caught by the per-job handler.  `artifactPath i` abstracts the
path returned by `storage.save_job_result`, appended to the result. -/
def execStep (runJob : Nat → JobDefinition → Except String JobResult)
    (artifactPath : Nat → String) (i : Nat) (job : JobDefinition)
    (s : ExecState) : ExecState :=
  if s.stop then
    { s with results := s.results ++ [skipResult job], skipped := s.skipped + 1 }
  else
    match runJob i job with
    | .ok r =>
        let r' := { r with artifacts := r.artifacts ++ [artifactPath i] }
        if r.status = .completed then
          { s with results := s.results ++ [r'], completed := s.completed + 1,
                   calls := s.calls ++ [i] }
        else
          { s with results := s.results ++ [r'], failed := s.failed + 1,
                   stop := true, calls := s.calls ++ [i] }
    | .error msg =>
        { s with results := s.results ++ [exceptionResult job msg],
                 failed := s.failed + 1, stop := true, calls := s.calls ++ [i] }

/-- The full job loop (`for i, job in enumerate(plan.jobs)`), threading
the loop state through `execStep` with the running index. -/
def execJobsAux (runJob : Nat → JobDefinition → Except String JobResult)
    (artifactPath : Nat → String) : Nat → ExecState → List JobDefinition → ExecState
  | _, s, [] => s
  | i, s, job :: rest =>
      execJobsAux runJob artifactPath (i + 1) (execStep runJob artifactPath i job s) rest

/-- executor.py `JobExecutor.execute`: run the job loop over the plan's
jobs in declared order, then build the final run summary (counters,
record totals, result list, and the final status decision of lines
236-239). -/
def executeRun (runJob : Nat → JobDefinition → Except String JobResult)
    (artifactPath : Nat → String) (run_id : String) (plan : ExecutionPlan)
    (m : ImplementationModel) : RunSummary :=
  let s := execJobsAux runJob artifactPath 0 initExecState plan.jobs
  { run_id := run_id, project_name := m.project.name, customer := m.project.customer,
    status := if s.failed = 0 ∧ s.skipped = 0 then .completed else .failed,
    total_jobs := plan.total_jobs,
    completed_jobs := s.completed, failed_jobs := s.failed, skipped_jobs := s.skipped,
    total_records := (s.results.map (·.records_processed)).sum,
    success_records := (s.results.map (·.records_success)).sum,
    failed_records := (s.results.map (·.records_failed)).sum,
    job_results := s.results,
    artifacts := (s.results.map (·.artifacts)).flatten }

/-! ## Handler lemmas and claims C7, C10 -/

theorem custStepCounts_sum (stepRun : Nat → CustomizingStep → Except String Bool) :
    ∀ (i : Nat) (steps : List CustomizingStep),
      (custStepCounts stepRun i steps).1 + (custStepCounts stepRun i steps).2 =
        steps.length := by
  intro i steps
  induction steps generalizing i with
  | nil => simp [custStepCounts]
  | cons st rest ih =>
      simp only [custStepCounts, List.length_cons]
      cases stepRun i st with
      | ok b =>
          cases b <;> simp only [] <;> have := ih (i + 1) <;> omega
      | error e =>
          simp only []
          have := ih (i + 1)
          omega

theorem testCaseCounts_sum (caseRun : Nat → TestCase → Except String Bool) :
    ∀ (i : Nat) (cases : List TestCase),
      (testCaseCounts caseRun i cases).1 + (testCaseCounts caseRun i cases).2 =
        cases.length := by
  intro i cs
  induction cs generalizing i with
  | nil => simp [testCaseCounts]
  | cons tc rest ih =>
      simp only [testCaseCounts, List.length_cons]
      cases caseRun i tc with
      | ok b =>
          cases b <;> simp only [] <;> have := ih (i + 1) <;> omega
      | error e =>
          simp only []
          have := ih (i + 1)
          omega

/-- Claim C7: for every executed customizing package and test suite, all
steps / cases are attempted (a failure does not stop the remaining ones:
the success and failure counts always add up to the full step / case
count), the result is `COMPLETED` whenever at least one step / case
succeeded, and it is `FAILED` only when every step / case failed. -/
theorem C7_partial_success
    (stepRun : Nat → CustomizingStep → Except String Bool)
    (caseRun : Nat → TestCase → Except String Bool)
    (cctx tctx : PluginContext) (pkg : CustomizingPackage) (suite : TestSuite) :
    ((customizingExecute stepRun cctx pkg).1.records_processed = pkg.steps.length ∧
     (customizingExecute stepRun cctx pkg).1.records_success +
       (customizingExecute stepRun cctx pkg).1.records_failed = pkg.steps.length ∧
     (0 < (customizingExecute stepRun cctx pkg).1.records_success →
       (customizingExecute stepRun cctx pkg).1.status = .completed) ∧
     ((customizingExecute stepRun cctx pkg).1.status = .failed →
       (customizingExecute stepRun cctx pkg).1.records_success = 0 ∧
         (customizingExecute stepRun cctx pkg).1.records_failed = pkg.steps.length)) ∧
    ((testingExecute caseRun tctx suite).1.records_processed = suite.cases.length ∧
     (testingExecute caseRun tctx suite).1.records_success +
       (testingExecute caseRun tctx suite).1.records_failed = suite.cases.length ∧
     (0 < (testingExecute caseRun tctx suite).1.records_success →
       (testingExecute caseRun tctx suite).1.status = .completed) ∧
     ((testingExecute caseRun tctx suite).1.status = .failed →
       (testingExecute caseRun tctx suite).1.records_success = 0 ∧
         (testingExecute caseRun tctx suite).1.records_failed = suite.cases.length)) := by
  have hc := custStepCounts_sum stepRun 0 pkg.steps
  have ht := testCaseCounts_sum caseRun 0 suite.cases
  constructor
  · refine ⟨rfl, hc, ?_, ?_⟩
    · intro hpos
      have hpos' : 0 < (custStepCounts stepRun 0 pkg.steps).1 := hpos
      show (if (custStepCounts stepRun 0 pkg.steps).2 = 0 then JobStatus.completed
        else if 0 < (custStepCounts stepRun 0 pkg.steps).1 then JobStatus.completed
        else JobStatus.failed) = JobStatus.completed
      by_cases h2 : (custStepCounts stepRun 0 pkg.steps).2 = 0
      · rw [if_pos h2]
      · rw [if_neg h2, if_pos hpos']
    · intro hfail
      have hstat : (if (custStepCounts stepRun 0 pkg.steps).2 = 0 then JobStatus.completed
          else if 0 < (custStepCounts stepRun 0 pkg.steps).1 then JobStatus.completed
          else JobStatus.failed) = JobStatus.failed := hfail
      by_cases h2 : (custStepCounts stepRun 0 pkg.steps).2 = 0
      · rw [if_pos h2] at hstat; exact absurd hstat (by simp)
      · rw [if_neg h2] at hstat
        by_cases h1 : 0 < (custStepCounts stepRun 0 pkg.steps).1
        · rw [if_pos h1] at hstat; exact absurd hstat (by simp)
        · have hz : (custStepCounts stepRun 0 pkg.steps).1 = 0 := by omega
          refine ⟨hz, ?_⟩
          show (custStepCounts stepRun 0 pkg.steps).2 = pkg.steps.length
          omega
  · refine ⟨rfl, ht, ?_, ?_⟩
    · intro hpos
      have hpos' : 0 < (testCaseCounts caseRun 0 suite.cases).1 := hpos
      show (if (testCaseCounts caseRun 0 suite.cases).2 = 0 then JobStatus.completed
        else if 0 < (testCaseCounts caseRun 0 suite.cases).1 then JobStatus.completed
        else JobStatus.failed) = JobStatus.completed
      by_cases h2 : (testCaseCounts caseRun 0 suite.cases).2 = 0
      · rw [if_pos h2]
      · rw [if_neg h2, if_pos hpos']
    · intro hfail
      have hstat : (if (testCaseCounts caseRun 0 suite.cases).2 = 0 then JobStatus.completed
          else if 0 < (testCaseCounts caseRun 0 suite.cases).1 then JobStatus.completed
          else JobStatus.failed) = JobStatus.failed := hfail
      by_cases h2 : (testCaseCounts caseRun 0 suite.cases).2 = 0
      · rw [if_pos h2] at hstat; exact absurd hstat (by simp)
      · rw [if_neg h2] at hstat
        by_cases h1 : 0 < (testCaseCounts caseRun 0 suite.cases).1
        · rw [if_pos h1] at hstat; exact absurd hstat (by simp)
        · have hz : (testCaseCounts caseRun 0 suite.cases).1 = 0 := by omega
          refine ⟨hz, ?_⟩
          show (testCaseCounts caseRun 0 suite.cases).2 = suite.cases.length
          omega

/-- A concrete handler context used by witnesses. -/
def wPluginCtx : PluginContext :=
  { run_id := "r", adapter := { system_id := "DEV", client := "100", connected := true },
    artifacts_path := "a", project_name := "P", customer := "C",
    target_system := "DEV", client := "100" }

/-- A two-step package used by the C7 witness. -/
def wPkg : CustomizingPackage :=
  { id := "PKG", steps := [{ action := "set_table" }, { action := "call_bapi" }] }

/-- A one-case suite used by the C7 witness. -/
def wSuite : TestSuite := { id := "SMOKE", cases := [{ id := "T1" }] }

/-- Step oracle for the C7 witness: the first step fails, the second succeeds. -/
def wStepRun : Nat → CustomizingStep → Except String Bool :=
  fun i _ => if i = 0 then Except.ok false else Except.ok true

/-- Case oracle for the C7 witness: every case raises an exception. -/
def wCaseRun : Nat → TestCase → Except String Bool := fun _ _ => Except.error "boom"

/-- Concrete instance of C7: a two-step package whose first step fails and
whose second succeeds is partially successful, hence `COMPLETED`; a suite
whose single case raises has every case failed, hence `FAILED`. -/
theorem C7_partial_success_witness :
    (customizingExecute wStepRun wPluginCtx wPkg).1.status = JobStatus.completed ∧
    (testingExecute wCaseRun wPluginCtx wSuite).1.status = JobStatus.failed := by
  refine ⟨(C7_partial_success wStepRun wCaseRun wPluginCtx wPluginCtx wPkg wSuite).1.2.2.1
    (by decide), ?_⟩
  decide

/-- Claim C10: a customizing package with no steps and a test suite with no
cases both complete with `records_processed = 0`. -/
theorem C10_empty_work
    (stepRun : Nat → CustomizingStep → Except String Bool)
    (caseRun : Nat → TestCase → Except String Bool)
    (cctx tctx : PluginContext) (cid ctgt : String) (cdesc : Option String)
    (tid ttgt : String) (tdesc : Option String) :
    ((customizingExecute stepRun cctx
        { id := cid, target := ctgt, description := cdesc, steps := [] }).1.status =
      JobStatus.completed ∧
     (customizingExecute stepRun cctx
        { id := cid, target := ctgt, description := cdesc, steps := [] }).1.records_processed = 0) ∧
    ((testingExecute caseRun tctx
        { id := tid, target := ttgt, description := tdesc, cases := [] }).1.status =
      JobStatus.completed ∧
     (testingExecute caseRun tctx
        { id := tid, target := ttgt, description := tdesc, cases := [] }).1.records_processed = 0) :=
  ⟨⟨rfl, rfl⟩, ⟨rfl, rfl⟩⟩

/-! ## Parser error-list lemmas and claim C5 -/

theorem parseYamlDoc_error_empty (d : RawDoc) (e : ParserError)
    (h : parseYamlDoc d = .error e) : e.errors = [] := by
  cases d with
  | syntaxError m =>
      simp only [parseYamlDoc, Except.error.injEq] at h
      rw [← h]
  | doc v =>
      cases v with
      | yMap kvs => simp only [parseYamlDoc] at h; exact Except.noConfusion h
      | yStr s => simp only [parseYamlDoc, Except.error.injEq] at h; rw [← h]
      | yInt n => simp only [parseYamlDoc, Except.error.injEq] at h; rw [← h]
      | yBool b => simp only [parseYamlDoc, Except.error.injEq] at h; rw [← h]
      | yNull => simp only [parseYamlDoc, Except.error.injEq] at h; rw [← h]
      | yList xs => simp only [parseYamlDoc, Except.error.injEq] at h; rw [← h]

theorem guard_error_ne {α : Type} (errs : List String) (x : α) {e : List String}
    (h : (if errs.isEmpty then Except.ok x else Except.error errs) = Except.error e) :
    e ≠ [] := by
  split at h
  · cases h
  · cases h
    simpa [List.isEmpty_iff] using ‹¬errs.isEmpty = true›

theorem guardV_error_ne {α : Type} (errs : List String) (x : α) {e : List String}
    (h : (if errs.isEmpty then Except.ok x
        else Except.error (ModelError.validation errs)) =
      Except.error (ModelError.validation e)) : e ≠ [] := by
  split at h
  · cases h
  · injection h with h'
    injection h' with h2
    subst h2
    simpa [List.isEmpty_iff] using ‹¬errs.isEmpty = true›

theorem collectEx_error_ne {α : Type} :
    ∀ (xs : List (Except (List String) α)),
      (∀ x ∈ xs, ∀ e, x = .error e → e ≠ []) →
      ∀ es, collectEx xs = .error es → es ≠ [] := by
  intro xs
  induction xs with
  | nil => intro _ es h; cases h
  | cons x rest ih =>
      intro hx es h
      cases x with
      | ok a =>
          simp only [collectEx] at h
          split at h
          · cases h
          · cases h
            exact ih (fun y hy => hx y (List.mem_cons_of_mem _ hy)) _ (by assumption)
      | error e0 =>
          have he0 : e0 ≠ [] := hx (.error e0) (List.mem_cons_self _ _) e0 rfl
          simp only [collectEx] at h
          split at h
          · cases h; exact he0
          · cases h
            intro hcon
            exact he0 (List.append_eq_nil.mp hcon).1

theorem parseSystemConfig_error_ne (i : Nat) (y : Yaml) (e : List String)
    (h : parseSystemConfig i y = .error e) : e ≠ [] := by
  cases y <;> simp only [parseSystemConfig] at h
  case yMap m => exact guard_error_ne _ _ h
  all_goals (cases h; simp)

theorem parseCompanyCode_error_ne (i : Nat) (y : Yaml) (e : List String)
    (h : parseCompanyCode i y = .error e) : e ≠ [] := by
  cases y <;> simp only [parseCompanyCode] at h
  case yMap m => exact guard_error_ne _ _ h
  all_goals (cases h; simp)

theorem parsePlant_error_ne (i : Nat) (y : Yaml) (e : List String)
    (h : parsePlant i y = .error e) : e ≠ [] := by
  cases y <;> simp only [parsePlant] at h
  case yMap m => exact guard_error_ne _ _ h
  all_goals (cases h; simp)

theorem parseCustomizingStep_error_ne (i : Nat) (y : Yaml) (e : List String)
    (h : parseCustomizingStep i y = .error e) : e ≠ [] := by
  cases y <;> simp only [parseCustomizingStep] at h
  case yMap m => exact guard_error_ne _ _ h
  all_goals (cases h; simp)

theorem parseMigrationObject_error_ne (i : Nat) (y : Yaml) (e : List String)
    (h : parseMigrationObject i y = .error e) : e ≠ [] := by
  cases y <;> simp only [parseMigrationObject] at h
  case yMap m => exact guard_error_ne _ _ h
  all_goals (cases h; simp)

theorem parseTestCase_error_ne (i : Nat) (y : Yaml) (e : List String)
    (h : parseTestCase i y = .error e) : e ≠ [] := by
  cases y <;> simp only [parseTestCase] at h
  case yMap m => exact guard_error_ne _ _ h
  all_goals (cases h; simp)

theorem parseProjectConfig_error_ne (y : Yaml) (e : List String)
    (h : parseProjectConfig y = .error (.validation e)) : e ≠ [] := by
  cases y <;> simp only [parseProjectConfig] at h
  case yMap m => exact guardV_error_ne _ _ h
  all_goals simp at h

theorem parseCustomizingPackage_error_ne (i : Nat) (y : Yaml) (e : List String)
    (h : parseCustomizingPackage i y = .error e) : e ≠ [] := by
  cases y <;> simp only [parseCustomizingPackage] at h
  case yMap m =>
      split at h
      · exact guard_error_ne _ _ h
      · rename_i es heq
        injection h with h'
        subst h'
        have hes : es ≠ [] := by
          split at heq
          · exact Except.noConfusion heq
          · refine collectEx_error_ne _ ?_ _ heq
            intro x hx e' hx'
            simp only [List.mem_map] at hx
            obtain ⟨p, -, rfl⟩ := hx
            exact parseCustomizingStep_error_ne p.1 p.2 e' hx'
          · injection heq with h2
            subst h2
            simp
        intro hcon
        obtain ⟨-, h2⟩ := List.append_eq_nil.mp hcon
        exact hes (List.map_eq_nil_iff.mp h2)
  all_goals (cases h; simp)


theorem parseTestSuite_error_ne (i : Nat) (y : Yaml) (e : List String)
    (h : parseTestSuite i y = .error e) : e ≠ [] := by
  cases y <;> simp only [parseTestSuite] at h
  case yMap m =>
      split at h
      · exact guard_error_ne _ _ h
      · rename_i es heq
        injection h with h'
        subst h'
        have hes : es ≠ [] := by
          split at heq
          · exact Except.noConfusion heq
          · refine collectEx_error_ne _ ?_ _ heq
            intro x hx e' hx'
            simp only [List.mem_map] at hx
            obtain ⟨p, -, rfl⟩ := hx
            exact parseTestCase_error_ne p.1 p.2 e' hx'
          · injection heq with h2
            subst h2
            simp
        intro hcon
        obtain ⟨-, h2⟩ := List.append_eq_nil.mp hcon
        exact hes (List.map_eq_nil_iff.mp h2)
  all_goals (cases h; simp)


theorem parseLandscapeConfig_error_ne (y : Yaml) (e : List String)
    (h : parseLandscapeConfig y = .error (.validation e)) : e ≠ [] := by
  cases y <;> simp only [parseLandscapeConfig] at h
  case yMap m =>
      split at h
      · exact Except.noConfusion h
      · split at h
        · exact Except.noConfusion h
        · rename_i es heq
          injection h with h'
          injection h' with h2
          subst h2
          refine collectEx_error_ne _ ?_ _ heq
          intro x hx e' hx'
          simp only [List.mem_map] at hx
          obtain ⟨p, -, rfl⟩ := hx
          exact parseSystemConfig_error_ne p.1 p.2 e' hx'
      · injection h with h'
        injection h' with h2
        subst h2
        simp
  all_goals simp at h

theorem parseCustomizingConfig_error_ne (y : Yaml) (e : List String)
    (h : parseCustomizingConfig y = .error (.validation e)) : e ≠ [] := by
  cases y <;> simp only [parseCustomizingConfig] at h
  case yMap m =>
      split at h
      · exact Except.noConfusion h
      · split at h
        · exact Except.noConfusion h
        · rename_i es heq
          injection h with h'
          injection h' with h2
          subst h2
          refine collectEx_error_ne _ ?_ _ heq
          intro x hx e' hx'
          simp only [List.mem_map] at hx
          obtain ⟨p, -, rfl⟩ := hx
          exact parseCustomizingPackage_error_ne p.1 p.2 e' hx'
      · injection h with h'
        injection h' with h2
        subst h2
        simp
  all_goals simp at h

theorem parseMigrationConfig_error_ne (y : Yaml) (e : List String)
    (h : parseMigrationConfig y = .error (.validation e)) : e ≠ [] := by
  cases y <;> simp only [parseMigrationConfig] at h
  case yMap m =>
      split at h
      · exact Except.noConfusion h
      · split at h
        · exact Except.noConfusion h
        · rename_i es heq
          injection h with h'
          injection h' with h2
          subst h2
          refine collectEx_error_ne _ ?_ _ heq
          intro x hx e' hx'
          simp only [List.mem_map] at hx
          obtain ⟨p, -, rfl⟩ := hx
          exact parseMigrationObject_error_ne p.1 p.2 e' hx'
      · injection h with h'
        injection h' with h2
        subst h2
        simp
  all_goals simp at h

theorem parseTestingConfig_error_ne (y : Yaml) (e : List String)
    (h : parseTestingConfig y = .error (.validation e)) : e ≠ [] := by
  cases y <;> simp only [parseTestingConfig] at h
  case yMap m =>
      split at h
      · exact Except.noConfusion h
      · split at h
        · exact Except.noConfusion h
        · rename_i es heq
          injection h with h'
          injection h' with h2
          subst h2
          refine collectEx_error_ne _ ?_ _ heq
          intro x hx e' hx'
          simp only [List.mem_map] at hx
          obtain ⟨p, -, rfl⟩ := hx
          exact parseTestSuite_error_ne p.1 p.2 e' hx'
      · injection h with h'
        injection h' with h2
        subst h2
        simp
  all_goals simp at h

theorem parseOrgConfig_error_ne (y : Yaml) (e : List String)
    (h : parseOrgConfig y = .error e) : e ≠ [] := by
  cases y <;> simp only [parseOrgConfig] at h
  case yMap m =>
      split at h
      · exact Except.noConfusion h
      · rename_i e1 a hcc hpl
        injection h with h'
        subst h'
        split at hcc
        · exact Except.noConfusion hcc
        · refine collectEx_error_ne _ ?_ _ hcc
          intro x hx e' hx'
          simp only [List.mem_map] at hx
          obtain ⟨p, -, rfl⟩ := hx
          exact parseCompanyCode_error_ne p.1 p.2 e' hx'
        · injection hcc with h2
          subst h2
          simp
      · rename_i a e1 hcc hpl
        injection h with h'
        subst h'
        split at hpl
        · exact Except.noConfusion hpl
        · refine collectEx_error_ne _ ?_ _ hpl
          intro x hx e' hx'
          simp only [List.mem_map] at hx
          obtain ⟨p, -, rfl⟩ := hx
          exact parsePlant_error_ne p.1 p.2 e' hx'
        · injection hpl with h2
          subst h2
          simp
      · rename_i e1 e2 hcc hpl
        injection h with h'
        subst h'
        have he1 : e1 ≠ [] := by
          split at hcc
          · exact Except.noConfusion hcc
          · refine collectEx_error_ne _ ?_ _ hcc
            intro x hx e' hx'
            simp only [List.mem_map] at hx
            obtain ⟨p, -, rfl⟩ := hx
            exact parseCompanyCode_error_ne p.1 p.2 e' hx'
          · injection hcc with h2
            subst h2
            simp
        intro hcon
        exact he1 (List.append_eq_nil.mp hcon).1
  all_goals (cases h; simp)

theorem parseScopeConfig_error_ne (y : Yaml) (e : List String)
    (h : parseScopeConfig y = .error (.validation e)) : e ≠ [] := by
  cases y <;> simp only [parseScopeConfig] at h
  case yMap m =>
      split at h
      · exact guardV_error_ne _ _ h
      · rename_i es heq
        injection h with h'
        injection h' with h2
        subst h2
        have hes : es ≠ [] := by
          split at heq
          · exact Except.noConfusion heq
          · exact parseOrgConfig_error_ne _ _ heq
        intro hcon
        exact hes (List.append_eq_nil.mp hcon).2
  all_goals simp at h

theorem transformToModel_error_ne (kvs : List (String × Yaml)) (es : List String)
    (h : transformToModel kvs = .error (.validation es)) : es ≠ [] := by
  simp only [transformToModel, bind, Except.bind] at h
  cases hp : parseProjectConfig ((lookupY kvs "project").getD (.yMap [])) with
  | error e0 => rw [hp] at h; cases h; exact parseProjectConfig_error_ne _ _ hp
  | ok project =>
  rw [hp] at h
  cases hl : parseLandscapeConfig ((lookupY kvs "landscape").getD (.yMap [])) with
  | error e0 => rw [hl] at h; cases h; exact parseLandscapeConfig_error_ne _ _ hl
  | ok landscape =>
  rw [hl] at h
  cases hs : parseScopeConfig ((lookupY kvs "scope").getD (.yMap [])) with
  | error e0 => rw [hs] at h; cases h; exact parseScopeConfig_error_ne _ _ hs
  | ok scope =>
  rw [hs] at h
  cases hcu : parseCustomizingConfig ((lookupY kvs "customizing").getD (.yMap [])) with
  | error e0 => rw [hcu] at h; cases h; exact parseCustomizingConfig_error_ne _ _ hcu
  | ok customizing =>
  rw [hcu] at h
  cases hm : parseMigrationConfig ((lookupY kvs "migration").getD (.yMap [])) with
  | error e0 => rw [hm] at h; cases h; exact parseMigrationConfig_error_ne _ _ hm
  | ok migration =>
  rw [hm] at h
  cases htst : parseTestingConfig ((lookupY kvs "testing").getD (.yMap [])) with
  | error e0 => rw [htst] at h; cases h; exact parseTestingConfig_error_ne _ _ htst
  | ok testing =>
  rw [htst] at h
  cases h

/-- Counterexamples to claim C5 as stated.  (a) Parsing the empty
document fails, but the raised error carries an empty error list (only
the opaque message `"Empty configuration"`).  (b) A document whose
`scope` section is a list (never shape-checked by `_validate_structure`)
makes `parse` fail with an uncaught `TypeError` from
`ScopeConfig(**...)` — no `ParserError` and no message list at all. -/
theorem C5_counterexample :
    parse (RawDoc.doc Yaml.yNull) =
      Except.error (.perr { message := "Empty configuration", errors := [] }) ∧
    parse (RawDoc.doc (.yMap
        [("project", .yMap [("name", .yStr "P"), ("customer", .yStr "C")]),
         ("scope", .yList [])])) =
      Except.error (.typeError
        "ScopeConfig() argument after ** must be a mapping, not list") :=
  ⟨rfl, rfl⟩

/-- Claim C5 (amended): when `parse` fails, one of three things happens —
the raw-document stage (`_parse_yaml`: syntax error, empty document, or
non-mapping top level) raises a `ParserError` with an empty error list
and only a message; a present non-mapping section value escapes
`_transform_to_model` as an uncaught `TypeError` carrying no error list
at all; or (structure, schema and semantic validation failures) the
raised `ParserError` carries a non-empty list of messages. -/
theorem C5_error_lists (d : RawDoc) (f : ParseFailure) (h : parse d = .error f) :
    (∃ e, f = .perr e ∧ parseYamlDoc d = .error e ∧ e.errors = []) ∨
    (∃ msg, f = .typeError msg) ∨
    (∃ e, f = .perr e ∧ e.errors ≠ []) := by
  simp only [parse] at h
  split at h
  · rename_i e0 hy
    injection h with h'
    subst h'
    exact Or.inl ⟨e0, rfl, hy, parseYamlDoc_error_empty _ _ hy⟩
  · rename_i kvs hy
    split at h
    · split at h
      · rename_i es heq
        injection h with h'
        subst h'
        exact Or.inr (Or.inr ⟨_, rfl, transformToModel_error_ne _ _ heq⟩)
      · rename_i msg heq
        injection h with h'
        subst h'
        exact Or.inr (Or.inl ⟨msg, rfl⟩)
      · rename_i m heq
        split at h
        · exact Except.noConfusion h
        · injection h with h'
          subst h'
          refine Or.inr (Or.inr ⟨_, rfl, ?_⟩)
          simpa [List.isEmpty_iff] using ‹¬(validateSemantics m).isEmpty = true›
    · injection h with h'
      subst h'
      refine Or.inr (Or.inr ⟨_, rfl, ?_⟩)
      simpa [List.isEmpty_iff] using ‹¬(validateStructure kvs).isEmpty = true›

/-- A structurally clean document whose `landscape` section is a string:
structure validation has no else-branch for it, so the failure happens at
`LandscapeConfig(**"foo")`. -/
def c5doc : RawDoc := RawDoc.doc (.yMap
  [("project", .yMap [("name", .yStr "P"), ("customer", .yStr "C")]),
   ("landscape", .yStr "foo")])

/-- Instance of the amended C5 at a concrete failing document: a
non-mapping `landscape` section escapes as an uncaught `TypeError` with
no error list. -/
theorem C5_error_lists_witness :
    parse c5doc = Except.error (.typeError
      "LandscapeConfig() argument after ** must be a mapping, not str") ∧
    ((∃ e, ParseFailure.typeError
        "LandscapeConfig() argument after ** must be a mapping, not str" = .perr e ∧
        parseYamlDoc c5doc = .error e ∧ e.errors = []) ∨
     (∃ msg, ParseFailure.typeError
        "LandscapeConfig() argument after ** must be a mapping, not str" =
          .typeError msg) ∨
     (∃ e, ParseFailure.typeError
        "LandscapeConfig() argument after ** must be a mapping, not str" = .perr e ∧
        e.errors ≠ [])) :=
  ⟨rfl, C5_error_lists c5doc _ rfl⟩

/-! ## Claim C6: conditional cross-reference validation, duplicate ids -/

/-- Claim C6: (a) for every configuration that passes structure and schema
validation, has an empty `landscape.systems` list and no duplicate ids,
`parse` succeeds — no matter which target systems the packages / objects /
suites name; (b) whenever two migration objects share an id, `parse` fails
at semantic validation with an error list containing the duplicate-id
message that names the migration phase. -/
theorem C6_semantic_validation :
    (∀ (raw : List (String × Yaml)) (m : ImplementationModel),
        validateStructure raw = [] →
        transformToModel raw = .ok m →
        m.landscape.systems = [] →
        (m.customizing.packages.map (·.id)).Nodup →
        (m.migration.objects.map (·.id)).Nodup →
        (m.testing.suites.map (·.id)).Nodup →
        parse (RawDoc.doc (.yMap raw)) = .ok m) ∧
    (∀ (raw : List (String × Yaml)) (m : ImplementationModel),
        validateStructure raw = [] →
        transformToModel raw = .ok m →
        ¬ (m.migration.objects.map (·.id)).Nodup →
        ∃ errs, parse (RawDoc.doc (.yMap raw)) =
            .error (.perr { message := "Semantic validation failed", errors := errs }) ∧
          "Duplicate migration object IDs found" ∈ errs) := by
  constructor
  · intro raw m hs ht hsys hp ho hsu
    have hsem : validateSemantics m = [] := by
      simp [validateSemantics, hsys, hp, ho, hsu]
    simp only [parse, parseYamlDoc]
    rw [hs, ht]
    simp [hsem]
  · intro raw m hs ht hdup
    have hmem : "Duplicate migration object IDs found" ∈ validateSemantics m := by
      simp [validateSemantics, hdup]
    refine ⟨validateSemantics m, ?_, hmem⟩
    have hne : (validateSemantics m).isEmpty = false := by
      cases hv : validateSemantics m with
      | nil => rw [hv] at hmem; cases hmem
      | cons a l => simp
    simp only [parse, parseYamlDoc]
    rw [hs, ht]
    simp [hne]

/-- Concrete instances of C6: a config with a dangling `target: "QAS"` and
no declared systems parses successfully; a config with two migration
objects both named `"MAT"` fails with the duplicate-id message. -/
theorem C6_semantic_validation_witness :
    parse (RawDoc.doc (.yMap
        [("project", .yMap [("name", .yStr "P"), ("customer", .yStr "C")]),
         ("customizing", .yMap [("packages",
            .yList [.yMap [("id", .yStr "PKG1"), ("target", .yStr "QAS")]])])])) =
      .ok { project := { name := "P", customer := "C" },
            customizing := { packages := [{ id := "PKG1", target := "QAS" }] } } ∧
    (∃ errs, parse (RawDoc.doc (.yMap
        [("project", .yMap [("name", .yStr "P"), ("customer", .yStr "C")]),
         ("migration", .yMap [("objects",
            .yList [.yMap [("id", .yStr "MAT")], .yMap [("id", .yStr "MAT")]])])])) =
          .error (.perr { message := "Semantic validation failed", errors := errs }) ∧
        "Duplicate migration object IDs found" ∈ errs) := by
  constructor
  · exact C6_semantic_validation.1 _ _ rfl rfl rfl (by decide) (by decide) (by decide)
  · exact C6_semantic_validation.2 _
      { project := { name := "P", customer := "C" },
        migration := { objects := [{ id := "MAT" }, { id := "MAT" }] } }
      rfl rfl (by decide)

/-! ## Claim C3: the handler context's key-value bag is not shared -/

instance : Inhabited CustomizingPackage := ⟨{ id := "" }⟩

instance : Inhabited JobDefinition :=
  ⟨{ id := "", type := .customizing, name := "", target_system := "",
     config := .cust default, dependencies := [] }⟩

/-- Two-package model for the C3 run. -/
def c3model : ImplementationModel :=
  { project := { name := "P", customer := "C" },
    customizing := { packages := [{ id := "PKG1" }, { id := "PKG2" }] } }

/-- The plan the planner produces for `c3model`. -/
def c3jobs : List JobDefinition :=
  (createPlan (fun k => toString k) "run1" c3model).jobs

/-- The adapter the executor would hold for the default target system. -/
def c3adapter : Adapter := { system_id := "DEV", client := "100", connected := true }

/-- The customizing payload carried by a job's config. -/
def c3pkg (j : JobDefinition) : CustomizingPackage :=
  match j.config with
  | .cust p => p
  | _ => default

/-- Claim C3 is false on the code: `_execute_job` builds a fresh
`PluginContext` for every job without passing the previous bag, so
`shared_state` always takes the dataclass default `{}`.  Concretely, in the
two-customizing-job run, the first handler stores `customizing_PKG1` into
its context's bag, yet the context supplied to the second job carries an
empty bag — the entry is not visible to any later handler. -/
theorem C3_shared_state_not_shared :
    (∀ (rid path : String) (m : ImplementationModel) (job : JobDefinition) (ad : Adapter),
        (executorContext rid path m job ad).shared_state = []) ∧
    c3jobs.headI.name = "Customizing: PKG1" ∧
    (c3jobs.drop 1).headI.name = "Customizing: PKG2" ∧
    ((customizingExecute (fun _ _ => .ok true)
        (executorContext "run1" "artifacts" c3model c3jobs.headI c3adapter)
        (c3pkg c3jobs.headI)).2.find?
          (fun p => p.1 == "customizing_PKG1")).isSome = true ∧
    (executorContext "run1" "artifacts" c3model ((c3jobs.drop 1).headI) c3adapter).shared_state
      = [] :=
  ⟨fun _ _ _ _ _ => rfl, rfl, rfl, rfl, rfl⟩

/-! ## Claim C9: adapter-pool discipline -/

/-- The pool held by the executor after a sequence of adapter references
(`_get_or_create_adapter` calls), starting from the empty pool the
executor owns at run start. -/
def poolAfter (m : ImplementationModel) (calls : List String) : List (String × Adapter) :=
  calls.foldl (fun pool sysid => (getOrCreateAdapter m sysid pool).2) []

theorem getOrCreateAdapter_keys_nodup (m : ImplementationModel) (sysid : String)
    (pool : List (String × Adapter)) (h : (pool.map (·.1)).Nodup) :
    (((getOrCreateAdapter m sysid pool).2).map (·.1)).Nodup := by
  unfold getOrCreateAdapter
  cases hf : pool.find? (fun p => p.1 == sysid) with
  | some p => simpa [hf] using h
  | none =>
      have hmem : sysid ∉ pool.map (·.1) := by
        intro hmem
        obtain ⟨p, hp, hp1⟩ := List.mem_map.mp hmem
        have := List.find?_eq_none.mp hf p hp
        simp [hp1] at this
      simp [hf, List.nodup_append, h, hmem]

theorem poolAfter_keys_nodup (m : ImplementationModel) (calls : List String) :
    ((poolAfter m calls).map (·.1)).Nodup := by
  suffices hgen : ∀ (cs : List String) (pool : List (String × Adapter)),
      (pool.map (·.1)).Nodup →
      ((cs.foldl (fun pl sysid => (getOrCreateAdapter m sysid pl).2) pool).map (·.1)).Nodup by
    exact hgen calls [] (by simp)
  intro cs
  induction cs with
  | nil => intro pool h; simpa using h
  | cons c rest ih =>
      intro pool h
      exact ih _ (getOrCreateAdapter_keys_nodup m c pool h)

theorem cleanupWarnings_spec (disconnect : Adapter → Except String Unit) :
    ∀ (pool : List (String × Adapter)),
      cleanupWarnings disconnect pool =
        pool.filterMap (fun p =>
          match disconnect p.2 with
          | .ok _ => none
          | .error e => some ("Error disconnecting adapter " ++ p.1 ++ ": " ++ e)) := by
  intro pool
  induction pool with
  | nil => rfl
  | cons p rest ih =>
      obtain ⟨sysid, a⟩ := p
      simp only [cleanupWarnings, List.filterMap_cons]
      cases disconnect a <;> simp [ih]

/-- Claim C9: after any sequence of adapter references the pool holds at
most one adapter per distinct system id; a reference to a pooled system
returns the stored adapter and leaves the pool unchanged (reuse), while
the first reference to a system creates, connects and stores one adapter
(lazy creation); cleanup always empties the pool, attempting to disconnect
every held adapter — each failing disconnect produces exactly one logged
warning and is never escalated (cleanup is total for every disconnect
behaviour). -/
theorem C9_adapter_pool (m : ImplementationModel) (calls : List String)
    (disconnect : Adapter → Except String Unit) :
    ((poolAfter m calls).map (·.1)).Nodup ∧
    (∀ (sysid : String) (p : String × Adapter),
        (poolAfter m calls).find? (fun q => q.1 == sysid) = some p →
        getOrCreateAdapter m sysid (poolAfter m calls) = (p.2, poolAfter m calls)) ∧
    (∀ sysid : String,
        (poolAfter m calls).find? (fun q => q.1 == sysid) = none →
        getOrCreateAdapter m sysid (poolAfter m calls) =
          ({ system_id := sysid, client := resolveClient m sysid, connected := true },
            poolAfter m calls ++
              [(sysid,
                { system_id := sysid, client := resolveClient m sysid, connected := true })])) ∧
    (cleanupPool disconnect (poolAfter m calls)).2 = [] ∧
    (cleanupPool disconnect (poolAfter m calls)).1 =
      (poolAfter m calls).filterMap (fun p =>
        match disconnect p.2 with
        | .ok _ => none
        | .error e => some ("Error disconnecting adapter " ++ p.1 ++ ": " ++ e)) := by
  refine ⟨poolAfter_keys_nodup m calls, ?_, ?_, rfl, cleanupWarnings_spec disconnect _⟩
  · intro sysid p hf
    simp [getOrCreateAdapter, hf]
  · intro sysid hf
    simp [getOrCreateAdapter, hf]

/-- Model used by the C9 witness: one declared system QAS with client 200. -/
def w9model : ImplementationModel :=
  { project := { name := "P", customer := "C" },
    landscape := { systems := [{ id := "QAS", client := "200" }] } }

/-- Pool built by the C9 witness: references to DEV, QAS, then DEV again. -/
def w9pool : List (String × Adapter) := poolAfter w9model ["DEV", "QAS", "DEV"]

/-- Concrete instance of C9: referencing DEV, QAS, DEV yields one adapter
each for DEV and QAS; the repeated QAS reference reuses the pooled adapter
(with the client resolved from the landscape); cleanup under an
always-failing disconnect still empties the pool. -/
theorem C9_adapter_pool_witness :
    (w9pool.map (·.1)).Nodup ∧
    getOrCreateAdapter w9model "QAS" w9pool =
      ({ system_id := "QAS", client := "200", connected := true }, w9pool) ∧
    (cleanupPool (fun _ => Except.error "rfc closed") w9pool).2 = [] := by
  refine ⟨(C9_adapter_pool w9model ["DEV", "QAS", "DEV"]
      (fun _ => Except.error "rfc closed")).1, ?_, ?_⟩
  · exact (C9_adapter_pool w9model ["DEV", "QAS", "DEV"]
      (fun _ => Except.error "rfc closed")).2.1 "QAS"
      ("QAS", { system_id := "QAS", client := "200", connected := true }) rfl
  · exact (C9_adapter_pool w9model ["DEV", "QAS", "DEV"]
      (fun _ => Except.error "rfc closed")).2.2.2.1

/-! ## Executor loop lemmas and claims C1, C4 -/

theorem execJobsAux_append (runJob : Nat → JobDefinition → Except String JobResult)
    (ap : Nat → String) :
    ∀ (xs ys : List JobDefinition) (i : Nat) (s : ExecState),
      execJobsAux runJob ap i s (xs ++ ys) =
        execJobsAux runJob ap (i + xs.length) (execJobsAux runJob ap i s xs) ys := by
  intro xs
  induction xs with
  | nil => intro ys i s; simp [execJobsAux]
  | cons x xs ih =>
      intro ys i s
      show execJobsAux runJob ap (i + 1) (execStep runJob ap i x s) (xs ++ ys) = _
      rw [ih]
      have hn : i + 1 + xs.length = i + (x :: xs).length := by
        simp only [List.length_cons]
        omega
      rw [hn]
      rfl

theorem execStep_results_len (runJob : Nat → JobDefinition → Except String JobResult)
    (ap : Nat → String) (i : Nat) (job : JobDefinition) (s : ExecState) :
    (execStep runJob ap i job s).results.length = s.results.length + 1 := by
  unfold execStep
  split
  · simp
  · split
    · split <;> simp
    · simp

theorem execJobsAux_results_len (runJob : Nat → JobDefinition → Except String JobResult)
    (ap : Nat → String) :
    ∀ (js : List JobDefinition) (i : Nat) (s : ExecState),
      (execJobsAux runJob ap i s js).results.length = s.results.length + js.length := by
  intro js
  induction js with
  | nil => intro i s; simp [execJobsAux]
  | cons job rest ih =>
      intro i s
      simp only [execJobsAux, List.length_cons]
      rw [ih, execStep_results_len]
      omega

theorem execStep_results_snoc (runJob : Nat → JobDefinition → Except String JobResult)
    (ap : Nat → String) (i : Nat) (job : JobDefinition) (s : ExecState) :
    ∃ r, (execStep runJob ap i job s).results = s.results ++ [r] := by
  unfold execStep
  split
  · exact ⟨_, rfl⟩
  · split
    · split
      · exact ⟨_, rfl⟩
      · exact ⟨_, rfl⟩
    · exact ⟨_, rfl⟩

theorem execJobsAux_results_prefix (runJob : Nat → JobDefinition → Except String JobResult)
    (ap : Nat → String) :
    ∀ (js : List JobDefinition) (i : Nat) (s : ExecState),
      ∃ t, (execJobsAux runJob ap i s js).results = s.results ++ t := by
  intro js
  induction js with
  | nil => intro i s; exact ⟨[], by simp [execJobsAux]⟩
  | cons job rest ih =>
      intro i s
      obtain ⟨r, hr⟩ := execStep_results_snoc runJob ap i job s
      obtain ⟨t, ht⟩ := ih (i + 1) (execStep runJob ap i job s)
      exact ⟨r :: t, by simp [execJobsAux, ht, hr]⟩

theorem execJobsAux_stopped (runJob : Nat → JobDefinition → Except String JobResult)
    (ap : Nat → String) :
    ∀ (js : List JobDefinition) (i : Nat) (s : ExecState), s.stop = true →
      execJobsAux runJob ap i s js =
        { s with results := s.results ++ js.map skipResult,
                 skipped := s.skipped + js.length } := by
  intro js
  induction js with
  | nil => intro i s h; simp [execJobsAux]
  | cons job rest ih =>
      intro i s h
      have hstep : execStep runJob ap i job s =
          { s with results := s.results ++ [skipResult job], skipped := s.skipped + 1 } := by
        unfold execStep
        rw [if_pos h]
      have hstop' : (execStep runJob ap i job s).stop = true := by
        rw [hstep]
        exact h
      show execJobsAux runJob ap (i + 1) (execStep runJob ap i job s) rest = _
      rw [ih (i + 1) _ hstop', hstep]
      cases s
      simp [List.append_assoc]
      all_goals omega

theorem execStep_calls (runJob : Nat → JobDefinition → Except String JobResult)
    (ap : Nat → String) (i : Nat) (job : JobDefinition) (s : ExecState) :
    (execStep runJob ap i job s).calls = s.calls ∨
      (execStep runJob ap i job s).calls = s.calls ++ [i] := by
  unfold execStep
  split
  · exact Or.inl rfl
  · split
    · split
      · exact Or.inr rfl
      · exact Or.inr rfl
    · exact Or.inr rfl

theorem execJobsAux_calls_bound (runJob : Nat → JobDefinition → Except String JobResult)
    (ap : Nat → String) :
    ∀ (js : List JobDefinition) (i : Nat) (s : ExecState) (x : Nat),
      x ∈ (execJobsAux runJob ap i s js).calls →
      x ∈ s.calls ∨ (i ≤ x ∧ x < i + js.length) := by
  intro js
  induction js with
  | nil => intro i s x hx; exact Or.inl hx
  | cons job rest ih =>
      intro i s x hx
      rcases ih (i + 1) (execStep runJob ap i job s) x hx with hmem | hrange
      · rcases execStep_calls runJob ap i job s with hc | hc
        · rw [hc] at hmem
          exact Or.inl hmem
        · rw [hc] at hmem
          rcases List.mem_append.mp hmem with hmem' | hmem'
          · exact Or.inl hmem'
          · simp only [List.mem_singleton] at hmem'
            subst hmem'
            right
            simp only [List.length_cons]
            omega
      · right
        simp only [List.length_cons]
        omega

theorem execStep_counters (runJob : Nat → JobDefinition → Except String JobResult)
    (ap : Nat → String) (i : Nat) (job : JobDefinition) (s : ExecState) :
    (execStep runJob ap i job s).completed + (execStep runJob ap i job s).failed +
        (execStep runJob ap i job s).skipped =
      s.completed + s.failed + s.skipped + 1 := by
  unfold execStep
  split
  · show s.completed + s.failed + (s.skipped + 1) = _
    omega
  · split
    · split
      · show s.completed + 1 + s.failed + s.skipped = _
        omega
      · show s.completed + (s.failed + 1) + s.skipped = _
        omega
    · show s.completed + (s.failed + 1) + s.skipped = _
      omega

theorem execJobsAux_counters (runJob : Nat → JobDefinition → Except String JobResult)
    (ap : Nat → String) :
    ∀ (js : List JobDefinition) (i : Nat) (s : ExecState),
      (execJobsAux runJob ap i s js).completed + (execJobsAux runJob ap i s js).failed +
          (execJobsAux runJob ap i s js).skipped =
        s.completed + s.failed + s.skipped + js.length := by
  intro js
  induction js with
  | nil => intro i s; simp [execJobsAux]
  | cons job rest ih =>
      intro i s
      simp only [execJobsAux, List.length_cons]
      rw [ih, execStep_counters]
      omega

/-- The fail-fast counter invariant of the loop state: once `stop` is set
the failed counter is at least one, and a positive skip count forces
`stop`. -/
def CounterInv (s : ExecState) : Prop :=
  (s.stop = true → 1 ≤ s.failed) ∧ (0 < s.skipped → s.stop = true)

theorem execStep_counterInv (runJob : Nat → JobDefinition → Except String JobResult)
    (ap : Nat → String) (i : Nat) (job : JobDefinition) (s : ExecState)
    (h : CounterInv s) : CounterInv (execStep runJob ap i job s) := by
  obtain ⟨h1, h2⟩ := h
  unfold execStep
  split
  · rename_i hstop
    exact ⟨fun _ => h1 hstop, fun _ => hstop⟩
  · rename_i hstop
    have hstop0 : s.stop = false := by
      cases hs : s.stop
      · rfl
      · exact absurd hs hstop
    have hsk : s.skipped = 0 := by
      by_contra hne
      rw [h2 (by omega)] at hstop0
      cases hstop0
    split
    · split
      · refine ⟨fun hc => h1 hc, fun hc => ?_⟩
        have hc' : 0 < s.skipped := hc
        omega
      · refine ⟨fun _ => ?_, fun _ => rfl⟩
        show 1 ≤ s.failed + 1
        omega
    · refine ⟨fun _ => ?_, fun _ => rfl⟩
      show 1 ≤ s.failed + 1
      omega

theorem execJobsAux_counterInv (runJob : Nat → JobDefinition → Except String JobResult)
    (ap : Nat → String) :
    ∀ (js : List JobDefinition) (i : Nat) (s : ExecState),
      CounterInv s → CounterInv (execJobsAux runJob ap i s js) := by
  intro js
  induction js with
  | nil => intro i s h; exact h
  | cons job rest ih =>
      intro i s h
      exact ih _ _ (execStep_counterInv runJob ap i job s h)

/-- The loop never holds a `FAILED` result while `stop` is unset. -/
def NoFailInv (s : ExecState) : Prop :=
  s.stop = false → ∀ r ∈ s.results, r.status ≠ .failed

theorem execStep_noFailInv (runJob : Nat → JobDefinition → Except String JobResult)
    (ap : Nat → String) (i : Nat) (job : JobDefinition) (s : ExecState)
    (h : NoFailInv s) : NoFailInv (execStep runJob ap i job s) := by
  unfold execStep
  split
  · rename_i hstop
    intro hstop' _ _
    have : (true : Bool) = false := hstop ▸ hstop'
    cases this
  · rename_i hstop
    have hstop0 : s.stop = false := by
      cases hs : s.stop
      · rfl
      · exact absurd hs hstop
    split
    · rename_i r hr
      split
      · rename_i hcomp
        intro _ r' hr' hf
        rcases List.mem_append.mp hr' with hm | hm
        · exact h hstop0 r' hm hf
        · simp only [List.mem_singleton] at hm
          subst hm
          have hst : r.status = JobStatus.failed := hf
          rw [hcomp] at hst
          cases hst
      · intro hstop' _ _
        cases hstop'
    · intro hstop' _ _
      cases hstop'

theorem execJobsAux_noFailInv (runJob : Nat → JobDefinition → Except String JobResult)
    (ap : Nat → String) :
    ∀ (js : List JobDefinition) (i : Nat) (s : ExecState),
      NoFailInv s → NoFailInv (execJobsAux runJob ap i s js) := by
  intro js
  induction js with
  | nil => intro i s h; exact h
  | cons job rest ih =>
      intro i s h
      exact ih _ _ (execStep_noFailInv runJob ap i job s h)

/-- Claim C1: in every executed run, once the result at position `i` of
the run's result list is `FAILED`, the result at every later position `j`
is `SKIPPED` with the uniform marker message, and the handler path
(`_execute_job`) is never invoked for the `j`-th job: its index is absent
from the loop's ghost call log. -/
theorem C1_fail_fast (runJob : Nat → JobDefinition → Except String JobResult)
    (ap : Nat → String) (rid : String) (plan : ExecutionPlan)
    (m : ImplementationModel) (i j : Nat) (ri rj : JobResult) (hij : i < j)
    (hi : (executeRun runJob ap rid plan m).job_results[i]? = some ri)
    (hfail : ri.status = .failed)
    (hj : (executeRun runJob ap rid plan m).job_results[j]? = some rj) :
    rj.status = .skipped ∧
      rj.error_message = some "Skipped due to previous failure" ∧
      j ∉ (execJobsAux runJob ap 0 initExecState plan.jobs).calls := by
  have hi' : (execJobsAux runJob ap 0 initExecState plan.jobs).results[i]? = some ri := hi
  have hj' : (execJobsAux runJob ap 0 initExecState plan.jobs).results[j]? = some rj := hj
  have hlen : (execJobsAux runJob ap 0 initExecState plan.jobs).results.length =
      plan.jobs.length := by
    simpa [initExecState] using
      execJobsAux_results_len runJob ap plan.jobs 0 initExecState
  have hjlt : j < plan.jobs.length := by
    obtain ⟨hw, -⟩ := List.getElem?_eq_some.mp hj'
    omega
  have hilt : i + 1 ≤ plan.jobs.length := by omega
  have htakelen : (plan.jobs.take (i + 1)).length = i + 1 := by
    rw [List.length_take]
    omega
  have hfin : execJobsAux runJob ap 0 initExecState plan.jobs =
      execJobsAux runJob ap (0 + (plan.jobs.take (i + 1)).length)
        (execJobsAux runJob ap 0 initExecState (plan.jobs.take (i + 1)))
        (plan.jobs.drop (i + 1)) := by
    conv_lhs => rw [← List.take_append_drop (i + 1) plan.jobs]
    exact execJobsAux_append runJob ap _ _ 0 initExecState
  have hmidlen : (execJobsAux runJob ap 0 initExecState (plan.jobs.take (i + 1))).results.length
      = i + 1 := by
    rw [execJobsAux_results_len]
    simp [initExecState, htakelen]
  have hmi : (execJobsAux runJob ap 0 initExecState (plan.jobs.take (i + 1))).results[i]?
      = some ri := by
    obtain ⟨t, ht⟩ := execJobsAux_results_prefix runJob ap (plan.jobs.drop (i + 1)) _
      (execJobsAux runJob ap 0 initExecState (plan.jobs.take (i + 1)))
    rw [hfin, ht, List.getElem?_append] at hi'
    rwa [if_pos (by omega)] at hi'
  have hmidstop : (execJobsAux runJob ap 0 initExecState (plan.jobs.take (i + 1))).stop
      = true := by
    by_contra hs
    have hs' : (execJobsAux runJob ap 0 initExecState (plan.jobs.take (i + 1))).stop
        = false := by
      cases hc : (execJobsAux runJob ap 0 initExecState (plan.jobs.take (i + 1))).stop
      · rfl
      · exact absurd hc hs
    have hfinv : NoFailInv (execJobsAux runJob ap 0 initExecState (plan.jobs.take (i + 1))) :=
      execJobsAux_noFailInv runJob ap _ 0 initExecState (by intro _ r hr; cases hr)
    exact hfinv hs' ri (List.getElem?_mem hmi) hfail
  have hrun := execJobsAux_stopped runJob ap (plan.jobs.drop (i + 1))
    (0 + (plan.jobs.take (i + 1)).length)
    (execJobsAux runJob ap 0 initExecState (plan.jobs.take (i + 1))) hmidstop
  rw [hrun] at hfin
  have hj2 : ((plan.jobs.drop (i + 1)).map skipResult)[j - (i + 1)]? = some rj := by
    rw [hfin] at hj'
    simp only at hj'
    rw [List.getElem?_append_right (by omega)] at hj'
    rwa [hmidlen] at hj'
  rw [List.getElem?_map] at hj2
  cases hjob : (plan.jobs.drop (i + 1))[j - (i + 1)]? with
  | none => rw [hjob] at hj2; cases hj2
  | some job =>
      rw [hjob] at hj2
      rw [show Option.map skipResult (some job) = some (skipResult job) from rfl] at hj2
      injection hj2 with hrj
      refine ⟨by rw [← hrj]; rfl, by rw [← hrj]; rfl, ?_⟩
      rw [hfin]
      show j ∉ (execJobsAux runJob ap 0 initExecState (plan.jobs.take (i + 1))).calls
      intro hjc
      rcases execJobsAux_calls_bound runJob ap (plan.jobs.take (i + 1)) 0 initExecState j hjc
        with hmem | hrange
      · cases hmem
      · omega

/-- Claim C4: for every run on a plan produced by `create_plan`, the
summary counters add up to the total job count, a positive skip count
implies at least one failure, and the final status is `COMPLETED` exactly
when no job failed and none was skipped (and is `FAILED` otherwise). -/
theorem C4_run_counters (runJob : Nat → JobDefinition → Except String JobResult)
    (ap : Nat → String) (nonce : Nat → String) (pid rid : String)
    (m : ImplementationModel) :
    (executeRun runJob ap rid (createPlan nonce pid m) m).completed_jobs +
        (executeRun runJob ap rid (createPlan nonce pid m) m).failed_jobs +
        (executeRun runJob ap rid (createPlan nonce pid m) m).skipped_jobs =
      (executeRun runJob ap rid (createPlan nonce pid m) m).total_jobs ∧
    (0 < (executeRun runJob ap rid (createPlan nonce pid m) m).skipped_jobs →
      1 ≤ (executeRun runJob ap rid (createPlan nonce pid m) m).failed_jobs) ∧
    ((executeRun runJob ap rid (createPlan nonce pid m) m).status = RunStatus.completed ↔
      ((executeRun runJob ap rid (createPlan nonce pid m) m).failed_jobs = 0 ∧
        (executeRun runJob ap rid (createPlan nonce pid m) m).skipped_jobs = 0)) ∧
    ((executeRun runJob ap rid (createPlan nonce pid m) m).status = RunStatus.completed ∨
      (executeRun runJob ap rid (createPlan nonce pid m) m).status = RunStatus.failed) := by
  have hcnt := execJobsAux_counters runJob ap (createPlan nonce pid m).jobs 0 initExecState
  have hinv0 : CounterInv initExecState := by
    constructor
    · intro h; cases h
    · intro h; exact absurd (show (0 : Nat) < 0 from h) (by omega)
  have hinv : CounterInv (execJobsAux runJob ap 0 initExecState (createPlan nonce pid m).jobs) :=
    execJobsAux_counterInv runJob ap _ 0 initExecState hinv0
  refine ⟨?_, ?_, ?_, ?_⟩
  · show (execJobsAux runJob ap 0 initExecState (createPlan nonce pid m).jobs).completed + _ + _
      = (createPlan nonce pid m).total_jobs
    have htot : (createPlan nonce pid m).total_jobs = (createPlan nonce pid m).jobs.length := rfl
    rw [htot]
    simpa [initExecState] using hcnt
  · intro hsk
    exact hinv.1 (hinv.2 hsk)
  · constructor
    · intro hst
      by_cases hcond :
          (execJobsAux runJob ap 0 initExecState (createPlan nonce pid m).jobs).failed = 0 ∧
          (execJobsAux runJob ap 0 initExecState (createPlan nonce pid m).jobs).skipped = 0
      · exact hcond
      · have hst' : (if (execJobsAux runJob ap 0 initExecState
              (createPlan nonce pid m).jobs).failed = 0 ∧
            (execJobsAux runJob ap 0 initExecState (createPlan nonce pid m).jobs).skipped = 0
            then RunStatus.completed else RunStatus.failed) = RunStatus.completed := hst
        rw [if_neg hcond] at hst'
        cases hst'
    · intro hok
      have hok' : (execJobsAux runJob ap 0 initExecState
            (createPlan nonce pid m).jobs).failed = 0 ∧
          (execJobsAux runJob ap 0 initExecState (createPlan nonce pid m).jobs).skipped = 0 :=
        hok
      show (if (execJobsAux runJob ap 0 initExecState
            (createPlan nonce pid m).jobs).failed = 0 ∧
          (execJobsAux runJob ap 0 initExecState (createPlan nonce pid m).jobs).skipped = 0
          then RunStatus.completed else RunStatus.failed) = RunStatus.completed
      rw [if_pos hok']
  · show (if _ then RunStatus.completed else RunStatus.failed) = RunStatus.completed ∨
      (if _ then RunStatus.completed else RunStatus.failed) = RunStatus.failed
    split
    · exact Or.inl rfl
    · exact Or.inr rfl

/-- Model for the executor witnesses: two customizing packages and one
migration object. -/
def w1model : ImplementationModel :=
  { project := { name := "P", customer := "C" },
    customizing := { packages := [{ id := "A" }, { id := "B" }] },
    migration := { objects := [{ id := "MAT" }] } }

/-- Plan for the executor witnesses. -/
def w1plan : ExecutionPlan := createPlan (fun k => toString k) "p1" w1model

/-- Handler oracle for the executor witnesses: the first job completes, the
second raises. -/
def w1runJob : Nat → JobDefinition → Except String JobResult := fun i job =>
  if i = 0 then
    .ok { job_id := job.id, job_type := job.type, job_name := job.name,
          status := .completed }
  else .error "boom"

/-- The failed result recorded for the second job of the witness run. -/
def w1ri : JobResult :=
  { job_id := "cust_B_1", job_type := .customizing, job_name := "Customizing: B",
    status := .failed, error_message := some "boom" }

/-- The skipped result recorded for the third job of the witness run. -/
def w1rj : JobResult :=
  { job_id := "migr_MAT_2", job_type := .migration, job_name := "Migration: MAT",
    status := .skipped, error_message := some "Skipped due to previous failure" }

/-- Concrete instance of C1: in the three-job run where the second job
raises, the third job's result is the uniform skip marker and its handler
is never invoked. -/
theorem C1_fail_fast_witness :
    (1 : Nat) < 2 ∧
    (executeRun w1runJob (fun _ => "art") "r1" w1plan w1model).job_results[1]? = some w1ri ∧
    w1ri.status = .failed ∧
    (executeRun w1runJob (fun _ => "art") "r1" w1plan w1model).job_results[2]? = some w1rj ∧
    (w1rj.status = .skipped ∧
      w1rj.error_message = some "Skipped due to previous failure" ∧
      2 ∉ (execJobsAux w1runJob (fun _ => "art") 0 initExecState w1plan.jobs).calls) := by
  refine ⟨by omega, by decide, rfl, by decide, ?_⟩
  exact C1_fail_fast w1runJob (fun _ => "art") "r1" w1plan w1model 1 2 w1ri w1rj
    (by omega) (by decide) rfl (by decide)

/-- Concrete instance of C4: the witness run has counters 1 + 1 + 1 = 3,
its positive skip count forces at least one failure, and its final status
is `FAILED`. -/
theorem C4_run_counters_witness :
    ((executeRun w1runJob (fun _ => "art") "r1"
        (createPlan (fun k => toString k) "p1" w1model) w1model).completed_jobs +
      (executeRun w1runJob (fun _ => "art") "r1"
        (createPlan (fun k => toString k) "p1" w1model) w1model).failed_jobs +
      (executeRun w1runJob (fun _ => "art") "r1"
        (createPlan (fun k => toString k) "p1" w1model) w1model).skipped_jobs =
      (executeRun w1runJob (fun _ => "art") "r1"
        (createPlan (fun k => toString k) "p1" w1model) w1model).total_jobs) ∧
    1 ≤ (executeRun w1runJob (fun _ => "art") "r1"
        (createPlan (fun k => toString k) "p1" w1model) w1model).failed_jobs ∧
    (executeRun w1runJob (fun _ => "art") "r1"
        (createPlan (fun k => toString k) "p1" w1model) w1model).status = RunStatus.failed := by
  refine ⟨(C4_run_counters w1runJob (fun _ => "art") (fun k => toString k) "p1" "r1" w1model).1,
    (C4_run_counters w1runJob (fun _ => "art") (fun k => toString k) "p1" "r1" w1model).2.1
      (by decide), by decide⟩

/-! ## Planner structural lemmas and claim C2 -/

/-- The customizing phase of the plan for a model. -/
def planCustJobs (nonce : Nat → String) (m : ImplementationModel) : List JobDefinition :=
  createCustomizingJobsAux nonce 0 none m.customizing.packages

/-- The migration phase of the plan for a model. -/
def planMigrJobs (nonce : Nat → String) (m : ImplementationModel) : List JobDefinition :=
  createMigrationJobsAux nonce ((planCustJobs nonce m).map (·.id))
    (planCustJobs nonce m).length m.migration.objects

/-- The testing phase of the plan for a model. -/
def planTestJobs (nonce : Nat → String) (m : ImplementationModel) : List JobDefinition :=
  createTestingJobsAux nonce ((planMigrJobs nonce m).map (·.id))
    ((planCustJobs nonce m).length + (planMigrJobs nonce m).length) m.testing.suites

theorem createCustomizingJobsAux_length (nonce : Nat → String) :
    ∀ (ps : List CustomizingPackage) (k : Nat) (prev : Option String),
      (createCustomizingJobsAux nonce k prev ps).length = ps.length := by
  intro ps
  induction ps with
  | nil => intro k prev; rfl
  | cons p ps ih =>
      intro k prev
      simp only [createCustomizingJobsAux, List.length_cons, ih]

theorem createMigrationJobsAux_length (nonce : Nat → String) (deps : List String) :
    ∀ (os : List MigrationObject) (k : Nat),
      (createMigrationJobsAux nonce deps k os).length = os.length := by
  intro os
  induction os with
  | nil => intro k; rfl
  | cons o os ih =>
      intro k
      simp only [createMigrationJobsAux, List.length_cons, ih]

theorem createTestingJobsAux_length (nonce : Nat → String) (deps : List String) :
    ∀ (ss : List TestSuite) (k : Nat),
      (createTestingJobsAux nonce deps k ss).length = ss.length := by
  intro ss
  induction ss with
  | nil => intro k; rfl
  | cons t ss ih =>
      intro k
      simp only [createTestingJobsAux, List.length_cons, ih]

theorem createCustomizingJobsAux_get (nonce : Nat → String) :
    ∀ (ps : List CustomizingPackage) (k : Nat) (prev : Option String) (i : Nat)
      (p : CustomizingPackage) (j : JobDefinition),
      ps[i]? = some p → (createCustomizingJobsAux nonce k prev ps)[i]? = some j →
      j.type = .customizing ∧ j.name = "Customizing: " ++ p.id ∧
        j.target_system = p.target ∧ j.config = .cust p ∧
        j.id = "cust_" ++ p.id ++ "_" ++ nonce (k + i) := by
  intro ps
  induction ps with
  | nil => intro k prev i p j hp _; rw [List.getElem?_nil] at hp; cases hp
  | cons q ps ih =>
      intro k prev i p j hp hj
      cases i with
      | zero =>
          rw [List.getElem?_cons_zero, Option.some.injEq] at hp
          subst hp
          cases prev with
          | none =>
              simp only [createCustomizingJobsAux, List.getElem?_cons_zero,
                Option.some.injEq] at hj
              subst hj
              exact ⟨rfl, rfl, rfl, rfl, rfl⟩
          | some pr =>
              simp only [createCustomizingJobsAux, List.getElem?_cons_zero,
                Option.some.injEq] at hj
              subst hj
              exact ⟨rfl, rfl, rfl, rfl, rfl⟩
      | succ n =>
          rw [List.getElem?_cons_succ] at hp
          simp only [createCustomizingJobsAux, List.getElem?_cons_succ] at hj
          have hrec := ih (k + 1) (some ("cust_" ++ q.id ++ "_" ++ nonce k)) n p j hp hj
          refine ⟨hrec.1, hrec.2.1, hrec.2.2.1, hrec.2.2.2.1, ?_⟩
          rw [hrec.2.2.2.2]
          have hn : k + 1 + n = k + (n + 1) := by omega
          rw [hn]

theorem createCustomizingJobsAux_head_deps (nonce : Nat → String) :
    ∀ (ps : List CustomizingPackage) (k : Nat) (prev : Option String) (j : JobDefinition),
      (createCustomizingJobsAux nonce k prev ps)[0]? = some j →
      j.dependencies = prev.toList := by
  intro ps
  cases ps with
  | nil =>
      intro k prev j h
      simp only [createCustomizingJobsAux, List.getElem?_nil] at h
      cases h
  | cons q ps =>
      intro k prev j h
      cases prev with
      | none =>
          simp only [createCustomizingJobsAux, List.getElem?_cons_zero,
            Option.some.injEq] at h
          subst h
          rfl
      | some pr =>
          simp only [createCustomizingJobsAux, List.getElem?_cons_zero,
            Option.some.injEq] at h
          subst h
          rfl

theorem createCustomizingJobsAux_chain (nonce : Nat → String) :
    ∀ (ps : List CustomizingPackage) (k : Nat) (prev : Option String) (i : Nat)
      (j j' : JobDefinition),
      (createCustomizingJobsAux nonce k prev ps)[i]? = some j →
      (createCustomizingJobsAux nonce k prev ps)[i + 1]? = some j' →
      j'.dependencies = [j.id] := by
  intro ps
  induction ps with
  | nil =>
      intro k prev i j j' h _
      simp only [createCustomizingJobsAux, List.getElem?_nil] at h
      cases h
  | cons q ps ih =>
      intro k prev i j j' hj hj'
      cases i with
      | zero =>
          simp only [createCustomizingJobsAux, List.getElem?_cons_zero,
            Option.some.injEq] at hj
          simp only [createCustomizingJobsAux, List.getElem?_cons_succ] at hj'
          have hd := createCustomizingJobsAux_head_deps nonce ps (k + 1)
            (some ("cust_" ++ q.id ++ "_" ++ nonce k)) j' hj'
          rw [hd, ← hj]
          rfl
      | succ n =>
          simp only [createCustomizingJobsAux, List.getElem?_cons_succ] at hj hj'
          exact ih (k + 1) (some ("cust_" ++ q.id ++ "_" ++ nonce k)) n j j' hj hj'

theorem createMigrationJobsAux_get (nonce : Nat → String) (deps : List String) :
    ∀ (os : List MigrationObject) (k : Nat) (i : Nat) (o : MigrationObject)
      (j : JobDefinition),
      os[i]? = some o → (createMigrationJobsAux nonce deps k os)[i]? = some j →
      j.type = .migration ∧ j.name = "Migration: " ++ o.id ∧ j.target_system = o.target ∧
        j.config = .migr o ∧ j.dependencies = deps ∧
        j.id = "migr_" ++ o.id ++ "_" ++ nonce (k + i) := by
  intro os
  induction os with
  | nil => intro k i o j ho _; rw [List.getElem?_nil] at ho; cases ho
  | cons q os ih =>
      intro k i o j ho hj
      cases i with
      | zero =>
          rw [List.getElem?_cons_zero, Option.some.injEq] at ho
          subst ho
          simp only [createMigrationJobsAux, List.getElem?_cons_zero,
            Option.some.injEq] at hj
          subst hj
          exact ⟨rfl, rfl, rfl, rfl, rfl, rfl⟩
      | succ n =>
          rw [List.getElem?_cons_succ] at ho
          simp only [createMigrationJobsAux, List.getElem?_cons_succ] at hj
          have hrec := ih (k + 1) n o j ho hj
          refine ⟨hrec.1, hrec.2.1, hrec.2.2.1, hrec.2.2.2.1, hrec.2.2.2.2.1, ?_⟩
          rw [hrec.2.2.2.2.2]
          have hn : k + 1 + n = k + (n + 1) := by omega
          rw [hn]

theorem createTestingJobsAux_get (nonce : Nat → String) (deps : List String) :
    ∀ (ss : List TestSuite) (k : Nat) (i : Nat) (t : TestSuite) (j : JobDefinition),
      ss[i]? = some t → (createTestingJobsAux nonce deps k ss)[i]? = some j →
      j.type = .testing ∧ j.name = "Testing: " ++ t.id ∧ j.target_system = t.target ∧
        j.config = .test t ∧ j.dependencies = deps ∧
        j.id = "test_" ++ t.id ++ "_" ++ nonce (k + i) := by
  intro ss
  induction ss with
  | nil => intro k i t j ht _; rw [List.getElem?_nil] at ht; cases ht
  | cons q ss ih =>
      intro k i t j ht hj
      cases i with
      | zero =>
          rw [List.getElem?_cons_zero, Option.some.injEq] at ht
          subst ht
          simp only [createTestingJobsAux, List.getElem?_cons_zero,
            Option.some.injEq] at hj
          subst hj
          exact ⟨rfl, rfl, rfl, rfl, rfl, rfl⟩
      | succ n =>
          rw [List.getElem?_cons_succ] at ht
          simp only [createTestingJobsAux, List.getElem?_cons_succ] at hj
          have hrec := ih (k + 1) n t j ht hj
          refine ⟨hrec.1, hrec.2.1, hrec.2.2.1, hrec.2.2.2.1, hrec.2.2.2.2.1, ?_⟩
          rw [hrec.2.2.2.2.2]
          have hn : k + 1 + n = k + (n + 1) := by omega
          rw [hn]

/-- Claim C2: `create_plan` emits exactly one job per customizing package,
then one per migration object, then one per test suite, each group in
declaration order; the total equals the sum of the three counts; each
customizing job depends exactly on the immediately preceding customizing
job (the first on nothing), each migration job on the list of all
customizing job ids, and each testing job on the list of all migration
job ids. -/
theorem C2_plan_structure (nonce : Nat → String) (rid : String) (m : ImplementationModel) :
    (createPlan nonce rid m).jobs =
        planCustJobs nonce m ++ planMigrJobs nonce m ++ planTestJobs nonce m ∧
    (planCustJobs nonce m).length = m.customizing.packages.length ∧
    (planMigrJobs nonce m).length = m.migration.objects.length ∧
    (planTestJobs nonce m).length = m.testing.suites.length ∧
    (createPlan nonce rid m).total_jobs =
      m.customizing.packages.length + m.migration.objects.length +
        m.testing.suites.length ∧
    (∀ (i : Nat) (p : CustomizingPackage) (j : JobDefinition),
        m.customizing.packages[i]? = some p → (planCustJobs nonce m)[i]? = some j →
        j.type = .customizing ∧ j.name = "Customizing: " ++ p.id ∧
          j.target_system = p.target ∧ j.config = .cust p) ∧
    (∀ j : JobDefinition, (planCustJobs nonce m)[0]? = some j → j.dependencies = []) ∧
    (∀ (i : Nat) (j j' : JobDefinition),
        (planCustJobs nonce m)[i]? = some j → (planCustJobs nonce m)[i + 1]? = some j' →
        j'.dependencies = [j.id]) ∧
    (∀ (i : Nat) (o : MigrationObject) (j : JobDefinition),
        m.migration.objects[i]? = some o → (planMigrJobs nonce m)[i]? = some j →
        j.type = .migration ∧ j.name = "Migration: " ++ o.id ∧
          j.target_system = o.target ∧ j.config = .migr o ∧
          j.dependencies = (planCustJobs nonce m).map (·.id)) ∧
    (∀ (i : Nat) (t : TestSuite) (j : JobDefinition),
        m.testing.suites[i]? = some t → (planTestJobs nonce m)[i]? = some j →
        j.type = .testing ∧ j.name = "Testing: " ++ t.id ∧
          j.target_system = t.target ∧ j.config = .test t ∧
          j.dependencies = (planMigrJobs nonce m).map (·.id)) := by
  refine ⟨rfl, createCustomizingJobsAux_length nonce _ 0 none, ?_, ?_, ?_, ?_, ?_, ?_, ?_, ?_⟩
  · exact createMigrationJobsAux_length nonce _ _ _
  · exact createTestingJobsAux_length nonce _ _ _
  · show (planCustJobs nonce m ++ planMigrJobs nonce m ++ planTestJobs nonce m).length = _
    rw [List.length_append, List.length_append]
    simp only [planCustJobs, planMigrJobs, planTestJobs]
    rw [createCustomizingJobsAux_length nonce _ 0 none,
      createMigrationJobsAux_length nonce _ _ _, createTestingJobsAux_length nonce _ _ _]
  · intro i p j hp hj
    have := createCustomizingJobsAux_get nonce m.customizing.packages 0 none i p j hp hj
    exact ⟨this.1, this.2.1, this.2.2.1, this.2.2.2.1⟩
  · intro j hj
    exact createCustomizingJobsAux_head_deps nonce m.customizing.packages 0 none j hj
  · intro i j j' hj hj'
    exact createCustomizingJobsAux_chain nonce m.customizing.packages 0 none i j j' hj hj'
  · intro i o j ho hj
    have hj' : (createMigrationJobsAux nonce ((planCustJobs nonce m).map (fun jd => jd.id))
        (planCustJobs nonce m).length m.migration.objects)[i]? = some j := hj
    have hrec := createMigrationJobsAux_get nonce ((planCustJobs nonce m).map (fun jd => jd.id))
      m.migration.objects (planCustJobs nonce m).length i o j ho hj'
    exact ⟨hrec.1, hrec.2.1, hrec.2.2.1, hrec.2.2.2.1, hrec.2.2.2.2.1⟩
  · intro i t j ht hj
    have hj' : (createTestingJobsAux nonce ((planMigrJobs nonce m).map (fun jd => jd.id))
        ((planCustJobs nonce m).length + (planMigrJobs nonce m).length)
        m.testing.suites)[i]? = some j := hj
    have hrec := createTestingJobsAux_get nonce ((planMigrJobs nonce m).map (fun jd => jd.id))
      m.testing.suites ((planCustJobs nonce m).length + (planMigrJobs nonce m).length)
      i t j ht hj'
    exact ⟨hrec.1, hrec.2.1, hrec.2.2.1, hrec.2.2.2.1, hrec.2.2.2.2.1⟩

/-- Concrete instance of C2 on the witness model: the plan has job groups
of sizes 2, 1, 1 in phase order, the second customizing job depends on the
first, the migration job depends on both customizing job ids, and the
testing job depends on the migration job id. -/
theorem C2_plan_structure_witness :
    (planCustJobs (fun k => toString k) w1model).length = 2 ∧
    ((createPlan (fun k => toString k) "p1"
      { project := { name := "P", customer := "C" },
        customizing := { packages := [{ id := "A" }, { id := "B" }] },
        migration := { objects := [{ id := "MAT" }] },
        testing := { suites := [{ id := "SMOKE" }] } }).total_jobs = 4) ∧
    (∀ j j' : JobDefinition,
        (planCustJobs (fun k => toString k) w1model)[0]? = some j →
        (planCustJobs (fun k => toString k) w1model)[1]? = some j' →
        j'.dependencies = [j.id]) := by
  refine ⟨rfl, ?_, ?_⟩
  · exact (C2_plan_structure (fun k => toString k) "p1"
      { project := { name := "P", customer := "C" },
        customizing := { packages := [{ id := "A" }, { id := "B" }] },
        migration := { objects := [{ id := "MAT" }] },
        testing := { suites := [{ id := "SMOKE" }] } }).2.2.2.2.1
  · intro j j' hj hj'
    exact (C2_plan_structure (fun k => toString k) "p1" w1model).2.2.2.2.2.2.2.1 0 j j' hj hj'

/-! ## Kahn topological sort: generic correctness (claim C8)

The loop state of `get_job_order` is analysed against the immutable rows
`(id, dependencies)` the dict was built from: at any point the current
dependency list of a key is its original list filtered by the results
popped so far. -/

/-- The keys of a row list. -/
def rowKeys (rows : List (String × List String)) : List String := rows.map Prod.fst

/-- The original dependency list of a key (first matching row). -/
def rowDeps (rows : List (String × List String)) (k : String) : List String :=
  (((rows.find? (fun p => p.1 == k))).map (·.2)).getD []

/-- The dependency table after the ids in `result` have been popped. -/
def currentPairs (rows : List (String × List String)) (result : List String) :
    List (String × List String) :=
  rows.map (fun p => (p.1, p.2.filter (fun x => decide (x ∉ result))))

theorem currentPairs_keys (rows : List (String × List String)) (result : List String) :
    (currentPairs rows result).map Prod.fst = rowKeys rows := by
  simp [currentPairs, rowKeys]

theorem currentPairs_nil (rows : List (String × List String)) :
    currentPairs rows [] = rows := by
  unfold currentPairs
  have : ∀ p : String × List String,
      (p.1, p.2.filter (fun x => decide (x ∉ ([] : List String)))) = p := by
    intro p
    rw [List.filter_eq_self.mpr]
    intro a _
    simp
  simp only [this]
  exact List.map_id _

theorem rowDeps_of_mem (rows : List (String × List String))
    (hk : (rowKeys rows).Nodup) (k : String) (d : List String)
    (hmem : (k, d) ∈ rows) : rowDeps rows k = d := by
  induction rows with
  | nil => cases hmem
  | cons p rows ih =>
      obtain ⟨k', d'⟩ := p
      rw [rowKeys, List.map_cons, List.nodup_cons] at hk
      rcases List.mem_cons.mp hmem with heq | htail
      · injection heq with h1 h2
        subst h1
        subst h2
        simp [rowDeps]
      · have hne : k' ≠ k := by
          intro hcon
          subst hcon
          exact hk.1 (List.mem_map.mpr ⟨(k', d), htail, rfl⟩)
        rw [rowDeps, List.find?_cons_of_neg, ← rowDeps]
        · exact ih hk.2 htail
        · simp [hne]

theorem erase_singleton_of_mem {d : List String} {j : String}
    (hj : j ∈ d) (he : d.erase j = []) : d = [j] := by
  cases d with
  | nil => cases hj
  | cons a t =>
      by_cases haj : a = j
      · subst haj
        rw [List.erase_cons_head] at he
        subst he
        rfl
      · rw [List.erase_cons_tail (by simp [haj])] at he
        cases he

theorem sweep_fst (j : String) (res : List String) :
    ∀ (ps : List (String × List String)) (av : List String),
      (sweep j res ps av).1 = ps.map (fun p => (p.1, p.2.erase j)) := by
  intro ps
  induction ps with
  | nil => intro av; rfl
  | cons p ps ih =>
      intro av
      obtain ⟨k, deps⟩ := p
      by_cases hj : j ∈ deps
      · simp only [sweep, if_pos hj, List.map_cons]
        rw [ih]
      · simp only [sweep, if_neg hj, List.map_cons]
        rw [ih, List.erase_of_not_mem hj]

theorem sweep_snd_spec (j : String) (res : List String) :
    ∀ (ps : List (String × List String)) (av : List String),
      (ps.map Prod.fst).Nodup →
      ∃ extra, (sweep j res ps av).2 = av ++ extra ∧
        extra.Sublist (ps.map Prod.fst) ∧
        (∀ k ∈ extra, k ∉ res ∧ k ∉ av ∧
          ∃ d, (k, d) ∈ ps ∧ j ∈ d ∧ d.erase j = []) ∧
        (∀ p ∈ ps, j ∈ p.2 → p.2.erase j = [] → p.1 ∉ res → p.1 ∉ av →
          p.1 ∈ extra) := by
  intro ps
  induction ps with
  | nil =>
      intro av _
      exact ⟨[], by simp [sweep], List.nil_sublist _, by simp, by simp⟩
  | cons p ps ih =>
      intro av hnd
      obtain ⟨k, deps⟩ := p
      rw [List.map_cons, List.nodup_cons] at hnd
      obtain ⟨hknotin, hnd'⟩ := hnd
      by_cases hj : j ∈ deps
      · by_cases hc : deps.erase j = [] ∧ k ∉ res ∧ k ∉ av
        · obtain ⟨extra, h1, h2, h3, h4⟩ := ih (av ++ [k]) hnd'
          have hsnd : (sweep j res ((k, deps) :: ps) av).2 =
              (sweep j res ps (if deps.erase j = [] ∧ k ∉ res ∧ k ∉ av
                then av ++ [k] else av)).2 := by
            simp only [sweep, if_pos hj]
          refine ⟨k :: extra, ?_, ?_, ?_, ?_⟩
          · rw [hsnd, if_pos hc, h1, List.append_assoc]
            rfl
          · exact List.Sublist.cons₂ k h2
          · intro x hx
            rcases List.mem_cons.mp hx with rfl | hx'
            · exact ⟨hc.2.1, hc.2.2, deps, List.mem_cons_self _ _, hj, hc.1⟩
            · obtain ⟨hr, hav, d, hd, hjd, hde⟩ := h3 x hx'
              refine ⟨hr, fun hcon => hav (List.mem_append_left _ hcon),
                d, List.mem_cons_of_mem _ hd, hjd, hde⟩
          · intro q hq hjq heq hqr hqa
            rcases List.mem_cons.mp hq with rfl | hq'
            · exact List.mem_cons_self _ _
            · have hqk : q.1 ≠ k := by
                intro hcon
                exact hknotin (hcon ▸ List.mem_map.mpr ⟨q, hq', rfl⟩)
              have hqa' : q.1 ∉ av ++ [k] := by
                intro hcon
                rcases List.mem_append.mp hcon with hcon' | hcon'
                · exact hqa hcon'
                · exact hqk (List.mem_singleton.mp hcon')
              exact List.mem_cons_of_mem _ (h4 q hq' hjq heq hqr hqa')
        · obtain ⟨extra, h1, h2, h3, h4⟩ := ih av hnd'
          have hsnd : (sweep j res ((k, deps) :: ps) av).2 =
              (sweep j res ps (if deps.erase j = [] ∧ k ∉ res ∧ k ∉ av
                then av ++ [k] else av)).2 := by
            simp only [sweep, if_pos hj]
          refine ⟨extra, ?_, h2.trans (List.sublist_cons_self _ _), ?_, ?_⟩
          · rw [hsnd, if_neg hc, h1]
          · intro x hx
            obtain ⟨hr, hav, d, hd, hjd, hde⟩ := h3 x hx
            exact ⟨hr, hav, d, List.mem_cons_of_mem _ hd, hjd, hde⟩
          · intro q hq hjq heq hqr hqa
            rcases List.mem_cons.mp hq with rfl | hq'
            · exact absurd ⟨heq, hqr, hqa⟩ hc
            · exact h4 q hq' hjq heq hqr hqa
      · obtain ⟨extra, h1, h2, h3, h4⟩ := ih av hnd'
        have hsnd : (sweep j res ((k, deps) :: ps) av).2 = (sweep j res ps av).2 := by
          simp only [sweep, if_neg hj]
        refine ⟨extra, ?_, h2.trans (List.sublist_cons_self _ _), ?_, ?_⟩
        · rw [hsnd, h1]
        · intro x hx
          obtain ⟨hr, hav, d, hd, hjd, hde⟩ := h3 x hx
          exact ⟨hr, hav, d, List.mem_cons_of_mem _ hd, hjd, hde⟩
        · intro q hq hjq heq hqr hqa
          rcases List.mem_cons.mp hq with rfl | hq'
          · exact absurd hjq hj
          · exact h4 q hq' hjq heq hqr hqa

theorem currentPairs_step (rows : List (String × List String))
    (hd : ∀ p ∈ rows, p.2.Nodup) (result : List String) (j : String) :
    (currentPairs rows result).map (fun p => (p.1, p.2.erase j)) =
      currentPairs rows (result ++ [j]) := by
  unfold currentPairs
  rw [List.map_map]
  apply List.map_congr_left
  intro p hp
  simp only [Function.comp]
  congr 1
  have hnd : (p.2.filter (fun x => decide (x ∉ result))).Nodup :=
    (hd p hp).filter _
  rw [hnd.erase_eq_filter, List.filter_filter]
  apply List.filter_congr
  intro x _
  by_cases hxr : x ∈ result
  · simp [hxr]
  · by_cases hxj : x = j
    · subst hxj
      simp [hxr]
    · simp [hxr, hxj]

/-- Invariant of the `get_job_order` loop state: results and available
keys are distinct known keys; every available key has all its original
dependencies already in the result; every result entry was emitted after
all its dependencies; and every row whose dependencies are all done is
either emitted or available. -/
def LoopInv (rows : List (String × List String)) (result avail : List String) : Prop :=
  (result ++ avail).Nodup ∧
  (∀ k ∈ result, k ∈ rowKeys rows) ∧
  (∀ k ∈ avail, k ∈ rowKeys rows) ∧
  (∀ k ∈ avail, rowDeps rows k ⊆ result) ∧
  (∀ (i : Nat) (k : String), result[i]? = some k → rowDeps rows k ⊆ result.take i) ∧
  (∀ p ∈ rows, (∀ x ∈ p.2, x ∈ result) → p.1 ∈ result ∨ p.1 ∈ avail)

/-- What the finished sort satisfies: distinct known keys, every key after
all its dependencies, and every row whose dependencies are all in the
output has its key in the output. -/
def KahnOut (rows : List (String × List String)) (fin : List String) : Prop :=
  fin.Nodup ∧
  (∀ k ∈ fin, k ∈ rowKeys rows) ∧
  (∀ (i : Nat) (k : String), fin[i]? = some k → rowDeps rows k ⊆ fin.take i) ∧
  (∀ p ∈ rows, (∀ x ∈ p.2, x ∈ fin) → p.1 ∈ fin)

theorem kahnOut_of_loopInv (rows : List (String × List String)) (result : List String)
    (hinv : LoopInv rows result []) : KahnOut rows result := by
  obtain ⟨h1, h2, _, _, h5, h6⟩ := hinv
  refine ⟨by simpa using h1, h2, h5, ?_⟩
  intro p hp hsub
  rcases h6 p hp hsub with h | h
  · exact h
  · cases h

theorem loopInv_step (rows : List (String × List String))
    (hk : (rowKeys rows).Nodup) (hd : ∀ p ∈ rows, p.2.Nodup)
    (result : List String) (j : String) (rest extra : List String)
    (hinv : LoopInv rows result (j :: rest))
    (hsubl : extra.Sublist ((currentPairs rows result).map Prod.fst))
    (hmem : ∀ k ∈ extra, k ∉ result ++ [j] ∧ k ∉ rest ∧
      ∃ d, (k, d) ∈ currentPairs rows result ∧ j ∈ d ∧ d.erase j = [])
    (hcomplete : ∀ p ∈ currentPairs rows result, j ∈ p.2 → p.2.erase j = [] →
      p.1 ∉ result ++ [j] → p.1 ∉ rest → p.1 ∈ extra) :
    LoopInv rows (result ++ [j]) (rest ++ extra) := by
  obtain ⟨hnodup, hresKeys, havKeys, havDeps, htopo, hfull⟩ := hinv
  have hjkeys : j ∈ rowKeys rows := havKeys j (List.mem_cons_self _ _)
  have hjdeps : rowDeps rows j ⊆ result := havDeps j (List.mem_cons_self _ _)
  have hextraKeys : ∀ k ∈ extra, k ∈ rowKeys rows := by
    intro k hkx
    have := hsubl.subset hkx
    rwa [currentPairs_keys] at this
  have hcurmem : ∀ (k : String) (d : List String), (k, d) ∈ currentPairs rows result →
      ∃ p ∈ rows, p.1 = k ∧ d = p.2.filter (fun x => decide (x ∉ result)) := by
    intro k d hkd
    obtain ⟨p, hp, hpe⟩ := List.mem_map.mp hkd
    injection hpe with h1 h2
    exact ⟨p, hp, h1, h2.symm⟩
  refine ⟨?_, ?_, ?_, ?_, ?_, ?_⟩
  · rw [← List.append_assoc]
    have hXnodup : ((result ++ [j]) ++ rest).Nodup := by
      have heq : result ++ j :: rest = (result ++ [j]) ++ rest := by simp
      rwa [heq] at hnodup
    have hextraNodup : extra.Nodup := by
      refine List.Sublist.nodup ?_ hk
      rwa [currentPairs_keys] at hsubl
    refine List.nodup_append.mpr ⟨hXnodup, hextraNodup, ?_⟩
    intro a ha hae
    obtain ⟨hnr, hnav, -⟩ := hmem a hae
    rcases List.mem_append.mp ha with h | h
    · exact hnr h
    · exact hnav h
  · intro k hkx
    rcases List.mem_append.mp hkx with h | h
    · exact hresKeys k h
    · rw [List.mem_singleton] at h
      subst h
      exact hjkeys
  · intro k hkx
    rcases List.mem_append.mp hkx with h | h
    · exact havKeys k (List.mem_cons_of_mem _ h)
    · exact hextraKeys k h
  · intro k hkx
    rcases List.mem_append.mp hkx with h | h
    · exact fun x hx => List.mem_append_left _ (havDeps k (List.mem_cons_of_mem _ h) hx)
    · obtain ⟨-, -, d, hdcur, hjd, hde⟩ := hmem k h
      obtain ⟨p, hp, hp1, hp2⟩ := hcurmem k d hdcur
      have hrd : rowDeps rows k = p.2 := by
        rw [← hp1]
        exact rowDeps_of_mem rows hk p.1 p.2 (by rwa [show (p.1, p.2) = p from rfl])
      rw [hrd]
      intro x hx
      by_cases hxr : x ∈ result
      · exact List.mem_append_left _ hxr
      · have hxd : x ∈ d := by
          rw [hp2]
          exact List.mem_filter.mpr ⟨hx, by simp [hxr]⟩
        have : x = j := by
          have hdj : d = [j] := erase_singleton_of_mem hjd hde
          rw [hdj] at hxd
          exact List.mem_singleton.mp hxd
        subst this
        exact List.mem_append_right _ (List.mem_singleton_self _)
  · intro i k hik
    rw [List.getElem?_append] at hik
    by_cases hi : i < result.length
    · rw [if_pos hi] at hik
      have htake : (result ++ [j]).take i = result.take i := by
        rw [List.take_append_eq_append_take]
        have : i - result.length = 0 := by omega
        rw [this]
        simp
      rw [htake]
      exact htopo i k hik
    · rw [if_neg hi] at hik
      cases hd2 : i - result.length with
      | zero =>
          rw [hd2] at hik
          simp only [List.getElem?_cons_zero, Option.some.injEq] at hik
          subst hik
          have hieq : i = result.length := by omega
          subst hieq
          have htake : (result ++ [j]).take result.length = result := by
            rw [List.take_append_eq_append_take]
            simp
          rw [htake]
          exact hjdeps
      | succ mm =>
          rw [hd2] at hik
          rw [List.getElem?_cons_succ, List.getElem?_nil] at hik
          cases hik
  · intro p hp hsub
    by_cases hall : ∀ x ∈ p.2, x ∈ result
    · rcases hfull p hp hall with h | h
      · exact Or.inl (List.mem_append_left _ h)
      · rcases List.mem_cons.mp h with heq | hr
        · exact Or.inl (List.mem_append_right _ (by rw [heq]; exact List.mem_singleton_self _))
        · exact Or.inr (List.mem_append_left _ hr)
    · push_neg at hall
      obtain ⟨x0, hx0mem, hx0nr⟩ := hall
      have hx0j : x0 = j := by
        rcases List.mem_append.mp (hsub x0 hx0mem) with h | h
        · exact absurd h hx0nr
        · exact List.mem_singleton.mp h
      subst hx0j
      have hjd : x0 ∈ p.2.filter (fun x => decide (x ∉ result)) :=
        List.mem_filter.mpr ⟨hx0mem, by simp [hx0nr]⟩
      have hdcur : (p.1, p.2.filter (fun x => decide (x ∉ result))) ∈
          currentPairs rows result := List.mem_map.mpr ⟨p, hp, rfl⟩
      have hde : (p.2.filter (fun x => decide (x ∉ result))).erase x0 = [] := by
        have hdnodup : (p.2.filter (fun x => decide (x ∉ result))).Nodup :=
          (hd p hp).filter _
        rw [hdnodup.erase_eq_filter]
        rw [List.filter_eq_nil_iff]
        intro a ha
        obtain ⟨hap, hanr⟩ := List.mem_filter.mp ha
        have hanr' : a ∉ result := by simpa using hanr
        have haj : a = x0 := by
          rcases List.mem_append.mp (hsub a hap) with h | h
          · exact absurd h hanr'
          · exact List.mem_singleton.mp h
        simp [haj]
      by_cases hp1 : p.1 ∈ result ++ [x0]
      · exact Or.inl hp1
      · by_cases hp1r : p.1 ∈ rest
        · exact Or.inr (List.mem_append_left _ hp1r)
        · exact Or.inr (List.mem_append_right _
            (hcomplete (p.1, p.2.filter (fun x => decide (x ∉ result)))
              hdcur hjd hde hp1 hp1r))

theorem kahnLoop_invariant (rows : List (String × List String))
    (hk : (rowKeys rows).Nodup) (hd : ∀ p ∈ rows, p.2.Nodup) :
    ∀ (n : Nat) (result avail : List String),
      totalDeps (currentPairs rows result) + avail.length ≤ n →
      LoopInv rows result avail →
      KahnOut rows (kahnLoop (currentPairs rows result) result avail) := by
  intro n
  induction n with
  | zero =>
      intro result avail hn hinv
      have havail : avail = [] := by
        cases avail with
        | nil => rfl
        | cons a l => simp [List.length_cons] at hn
      subst havail
      have hend : kahnLoop (currentPairs rows result) result [] = result := by
        simp only [kahnLoop]
      rw [hend]
      exact kahnOut_of_loopInv rows result hinv
  | succ n ih =>
      intro result avail hn hinv
      cases avail with
      | nil =>
          have hend : kahnLoop (currentPairs rows result) result [] = result := by
            simp only [kahnLoop]
          rw [hend]
          exact kahnOut_of_loopInv rows result hinv
      | cons j rest =>
          have hloop : kahnLoop (currentPairs rows result) result (j :: rest) =
              kahnLoop (sweep j (result ++ [j]) (currentPairs rows result) rest).1
                (result ++ [j])
                (sweep j (result ++ [j]) (currentPairs rows result) rest).2 := by
            simp only [kahnLoop]
          obtain ⟨extra, hsnd, hsub, hmem, hcomplete⟩ :=
            sweep_snd_spec j (result ++ [j]) (currentPairs rows result) rest
              (by rw [currentPairs_keys]; exact hk)
          have hfst : (sweep j (result ++ [j]) (currentPairs rows result) rest).1 =
              currentPairs rows (result ++ [j]) := by
            rw [sweep_fst, currentPairs_step rows hd result j]
          have hmeas := sweep_measure j (result ++ [j]) (currentPairs rows result) rest
          have hinv' : LoopInv rows (result ++ [j]) (rest ++ extra) :=
            loopInv_step rows hk hd result j rest extra hinv hsub hmem hcomplete
          have hn' : totalDeps (currentPairs rows (result ++ [j])) +
              (rest ++ extra).length ≤ n := by
            rw [← hfst]
            have h2 : (rest ++ extra).length = (sweep j (result ++ [j])
                (currentPairs rows result) rest).2.length := by rw [hsnd]
            rw [h2]
            simp only [List.length_cons] at hn
            omega
          have hout := ih (result ++ [j]) (rest ++ extra) hn' hinv'
          rw [hloop, hfst, hsnd]
          exact hout

/-! ### From the loop invariant to `get_job_order` on a plan -/

theorem exists_getElem_of_mem {α : Type} {l : List α} {a : α} (h : a ∈ l) :
    ∃ n : Nat, l[n]? = some a := by
  obtain ⟨n, hn⟩ := List.get_of_mem h
  refine ⟨n, ?_⟩
  rw [List.getElem?_eq_getElem n.isLt]
  simpa using congrArg some hn

theorem mem_take_of_getElem {α : Type} {l : List α} {i n : Nat} {a : α}
    (hn : l[n]? = some a) (hni : n < i) : a ∈ l.take i :=
  List.getElem?_mem (by rw [List.getElem?_take, if_pos hni]; exact hn)

/-- Running the whole loop from the initial state (`result = []`, `available`
the keys whose dependency list is empty, in dict order) yields an output
satisfying `KahnOut`, provided keys are distinct and each dependency list
is duplicate-free. -/
theorem kahn_loop_main (rows : List (String × List String))
    (hk : (rowKeys rows).Nodup) (hd : ∀ p ∈ rows, p.2.Nodup) :
    KahnOut rows (kahnLoop rows []
      ((rows.filter (fun p => p.2.isEmpty)).map (·.1))) := by
  have hsubl : ((rows.filter (fun p => p.2.isEmpty)).map (fun p => p.1)).Sublist
      (rows.map (fun p => p.1)) :=
    List.Sublist.map _ (List.filter_sublist _)
  have hsubl' : ((rows.filter (fun p => p.2.isEmpty)).map (fun p => p.1)).Sublist
      (rowKeys rows) := hsubl
  have hinv : LoopInv rows [] ((rows.filter (fun p => p.2.isEmpty)).map (·.1)) := by
    refine ⟨?_, ?_, ?_, ?_, ?_, ?_⟩
    · rw [List.nil_append]
      exact hsubl'.nodup hk
    · intro k hk0
      exact absurd hk0 (List.not_mem_nil k)
    · intro k hkm
      exact hsubl'.subset hkm
    · intro k hkm
      obtain ⟨p, hpf, hpk⟩ := List.mem_map.mp hkm
      obtain ⟨hpr, hpe⟩ := List.mem_filter.mp hpf
      have hp2 : p.2 = [] := by simpa [List.isEmpty_iff] using hpe
      have hrd : rowDeps rows k = p.2 := by
        rw [← hpk]
        exact rowDeps_of_mem rows hk p.1 p.2 (by rwa [show (p.1, p.2) = p from rfl])
      rw [hrd, hp2]
      exact List.nil_subset _
    · intro i k hik
      rw [List.getElem?_nil] at hik
      cases hik
    · intro p hp hsub
      right
      have hp2 : p.2 = [] := by
        cases hpc : p.2 with
        | nil => rfl
        | cons a t =>
            have ha : a ∈ p.2 := by
              rw [hpc]
              exact List.mem_cons_self _ _
            exact absurd (hsub a ha) (List.not_mem_nil a)
      exact List.mem_map.mpr ⟨p, List.mem_filter.mpr ⟨hp, by rw [hp2]; rfl⟩, rfl⟩
  have h := kahnLoop_invariant rows hk hd
    (totalDeps rows + ((rows.filter (fun p => p.2.isEmpty)).map (·.1)).length)
    [] ((rows.filter (fun p => p.2.isEmpty)).map (·.1))
    (by rw [currentPairs_nil]) hinv
  rwa [currentPairs_nil] at h

/-- When every row's dependencies point only at keys of strictly earlier
rows, the loop output is a permutation of all keys. -/
theorem kahnOut_perm (rows : List (String × List String))
    (hk : (rowKeys rows).Nodup)
    (hrank : ∀ (i : Nat) (p : String × List String), rows[i]? = some p →
      ∀ x ∈ p.2, x ∈ (rows.take i).map Prod.fst)
    (out : List String) (hout : KahnOut rows out) : out.Perm (rowKeys rows) := by
  obtain ⟨hnd, hsub, -, hcompl⟩ := hout
  have hall : ∀ m : Nat, ∀ p ∈ rows.take m, p.1 ∈ out := by
    intro m
    induction m with
    | zero =>
        intro p hp
        rw [List.take_zero] at hp
        cases hp
    | succ n ih =>
        intro p hp
        rw [List.take_succ] at hp
        rcases List.mem_append.mp hp with h | h
        · exact ih p h
        · cases hgn : rows[n]? with
          | none =>
              rw [hgn] at h
              cases h
          | some q =>
              rw [hgn] at h
              have hpq : p = q := by simpa using h
              subst hpq
              refine hcompl p (List.getElem?_mem hgn) ?_
              intro x hx
              have hxm := hrank n p hgn x hx
              obtain ⟨r, hr, hrx⟩ := List.mem_map.mp hxm
              rw [← hrx]
              exact ih r hr
  have hsub2 : ∀ k ∈ rowKeys rows, k ∈ out := by
    intro k hkm
    obtain ⟨p, hp, hpk⟩ := List.mem_map.mp hkm
    rw [← hpk]
    exact hall rows.length p (by rw [List.take_length]; exact hp)
  exact (List.perm_ext_iff_of_nodup hnd hk).mpr
    (fun a => ⟨fun h => hsub a h, fun h => hsub2 a h⟩)

theorem dictSet_fresh {α : Type} (d : List (String × α)) (k : String) (v : α)
    (hk : ∀ p ∈ d, p.1 ≠ k) : dictSet d k v = d ++ [(k, v)] := by
  have hcond : ¬ (d.any (fun p => p.1 == k) = true) := by
    intro hcon
    obtain ⟨p, hp, hpe⟩ := List.any_eq_true.mp hcon
    exact hk p hp (by simpa using hpe)
  unfold dictSet
  rw [if_neg hcond]

theorem buildJobDeps_aux (jobs : List JobDefinition) :
    ∀ d : List (String × List String),
      (∀ p ∈ d, ∀ j ∈ jobs, p.1 ≠ j.id) →
      (jobs.map (fun j => j.id)).Nodup →
      jobs.foldl (fun acc j => dictSet acc j.id j.dependencies) d =
        d ++ jobs.map (fun j => (j.id, j.dependencies)) := by
  induction jobs with
  | nil =>
      intro d _ _
      simp
  | cons j js ih =>
      intro d hfresh hnd
      rw [List.map_cons, List.nodup_cons] at hnd
      have hstep : dictSet d j.id j.dependencies = d ++ [(j.id, j.dependencies)] :=
        dictSet_fresh d j.id j.dependencies
          (fun p hp => hfresh p hp j (List.mem_cons_self _ _))
      have hfresh' : ∀ p ∈ d ++ [(j.id, j.dependencies)], ∀ j' ∈ js, p.1 ≠ j'.id := by
        intro p hp j' hj'
        rcases List.mem_append.mp hp with h | h
        · exact hfresh p h j' (List.mem_cons_of_mem _ hj')
        · have hpe : p = (j.id, j.dependencies) := by simpa using h
          rw [hpe]
          intro hcon
          have hcon' : j.id = j'.id := hcon
          apply hnd.1
          rw [hcon']
          exact List.mem_map.mpr ⟨j', hj', rfl⟩
      rw [List.foldl_cons, hstep, ih (d ++ [(j.id, j.dependencies)]) hfresh' hnd.2,
        List.map_cons, List.append_assoc]
      rfl

/-- Under distinct job ids, the dict comprehension
`{job.id: job.dependencies.copy() for job in plan.jobs}` is the row list
of `(id, dependencies)` pairs in plan order. -/
theorem buildJobDeps_eq (jobs : List JobDefinition)
    (hids : (jobs.map (fun j => j.id)).Nodup) :
    buildJobDeps jobs = jobs.map (fun j => (j.id, j.dependencies)) := by
  unfold buildJobDeps
  rw [buildJobDeps_aux jobs [] (fun p hp => absurd hp (List.not_mem_nil p)) hids,
    List.nil_append]

theorem rowKeys_rowsOf (jobs : List JobDefinition) :
    rowKeys (jobs.map (fun j => (j.id, j.dependencies))) =
      jobs.map (fun j => j.id) := by
  unfold rowKeys
  rw [List.map_map]
  rfl

theorem getJobOrder_eq (jobs : List JobDefinition)
    (hids : (jobs.map (fun j => j.id)).Nodup) :
    getJobOrder jobs =
      kahnLoop (jobs.map (fun j => (j.id, j.dependencies))) []
        (((jobs.map (fun j => (j.id, j.dependencies))).filter
          (fun p => p.2.isEmpty)).map (·.1)) := by
  simp only [getJobOrder]
  rw [buildJobDeps_eq jobs hids]

/-- `get_job_order` is correct on any job list with distinct ids,
duplicate-free dependency lists, and dependencies referring only to
strictly earlier jobs: it returns a permutation of the ids in which every
job id appears after all ids in its dependency list. -/
theorem getJobOrder_correct (jobs : List JobDefinition)
    (hids : (jobs.map (fun j => j.id)).Nodup)
    (hdep : ∀ j ∈ jobs, j.dependencies.Nodup)
    (hrank : ∀ (i : Nat) (j : JobDefinition), jobs[i]? = some j →
      ∀ x ∈ j.dependencies, x ∈ (jobs.take i).map (fun j2 => j2.id)) :
    (getJobOrder jobs).Perm (jobs.map (fun j => j.id)) ∧
    ∀ j ∈ jobs, ∀ (i : Nat), (getJobOrder jobs)[i]? = some j.id →
      ∀ x ∈ j.dependencies, x ∈ (getJobOrder jobs).take i := by
  set rows := jobs.map (fun j => (j.id, j.dependencies)) with hrows
  have hk : (rowKeys rows).Nodup := by
    rw [hrows, rowKeys_rowsOf]
    exact hids
  have hd : ∀ p ∈ rows, p.2.Nodup := by
    intro p hp
    rw [hrows] at hp
    obtain ⟨j, hj, hje⟩ := List.mem_map.mp hp
    rw [← hje]
    exact hdep j hj
  have hout : KahnOut rows
      (kahnLoop rows [] ((rows.filter (fun p => p.2.isEmpty)).map (·.1))) :=
    kahn_loop_main rows hk hd
  have hord : getJobOrder jobs =
      kahnLoop rows [] ((rows.filter (fun p => p.2.isEmpty)).map (·.1)) := by
    rw [hrows]
    exact getJobOrder_eq jobs hids
  rw [← hord] at hout
  have hrank' : ∀ (i : Nat) (p : String × List String), rows[i]? = some p →
      ∀ x ∈ p.2, x ∈ (rows.take i).map Prod.fst := by
    intro i p hip x hx
    rw [hrows, List.getElem?_map] at hip
    cases hji : jobs[i]? with
    | none =>
        rw [hji] at hip
        cases hip
    | some j =>
        rw [hji] at hip
        have hp : (j.id, j.dependencies) = p := by simpa using hip
        have hx' : x ∈ j.dependencies := by
          rw [← hp] at hx
          exact hx
        have hxm := hrank i j hji x hx'
        rw [hrows, ← List.map_take, List.map_map]
        exact hxm
  obtain ⟨hnd2, hsub2, htopo, hcmpl⟩ := hout
  constructor
  · have hperm := kahnOut_perm rows hk hrank' (getJobOrder jobs)
      ⟨hnd2, hsub2, htopo, hcmpl⟩
    rw [hrows, rowKeys_rowsOf] at hperm
    exact hperm
  · intro j hj i hi x hx
    have hrd : rowDeps rows j.id = j.dependencies :=
      rowDeps_of_mem rows hk j.id j.dependencies
        (by rw [hrows]; exact List.mem_map.mpr ⟨j, hj, rfl⟩)
    exact htopo i j.id hi (by rw [hrd]; exact hx)

theorem createCustomizingJobsAux_dep_shape (nonce : Nat → String) :
    ∀ (ps : List CustomizingPackage) (k : Nat) (prev : Option String)
      (j : JobDefinition), j ∈ createCustomizingJobsAux nonce k prev ps →
      j.dependencies = [] ∨ ∃ q, j.dependencies = [q] := by
  intro ps
  induction ps with
  | nil =>
      intro k prev j h
      simp only [createCustomizingJobsAux] at h
      cases h
  | cons p ps ih =>
      intro k prev j h
      simp only [createCustomizingJobsAux, List.mem_cons] at h
      rcases h with he | h'
      · cases prev with
        | none =>
            rw [he]
            exact Or.inl rfl
        | some q =>
            rw [he]
            exact Or.inr ⟨q, rfl⟩
      · exact ih (k + 1) (some ("cust_" ++ p.id ++ "_" ++ nonce k)) j h'

theorem createMigrationJobsAux_deps (nonce : Nat → String) (deps : List String)
    (os : List MigrationObject) (k : Nat) (j : JobDefinition)
    (hj : j ∈ createMigrationJobsAux nonce deps k os) : j.dependencies = deps := by
  obtain ⟨i, hi⟩ := exists_getElem_of_mem hj
  obtain ⟨hlt, -⟩ := List.getElem?_eq_some.mp hi
  rw [createMigrationJobsAux_length] at hlt
  have ho : os[i]? = some (os.get ⟨i, hlt⟩) := List.getElem?_eq_getElem hlt
  exact (createMigrationJobsAux_get nonce deps os k i (os.get ⟨i, hlt⟩) j ho hi).2.2.2.2.1

theorem createTestingJobsAux_deps (nonce : Nat → String) (deps : List String)
    (ss : List TestSuite) (k : Nat) (j : JobDefinition)
    (hj : j ∈ createTestingJobsAux nonce deps k ss) : j.dependencies = deps := by
  obtain ⟨i, hi⟩ := exists_getElem_of_mem hj
  obtain ⟨hlt, -⟩ := List.getElem?_eq_some.mp hi
  rw [createTestingJobsAux_length] at hlt
  have ht : ss[i]? = some (ss.get ⟨i, hlt⟩) := List.getElem?_eq_getElem hlt
  exact (createTestingJobsAux_get nonce deps ss k i (ss.get ⟨i, hlt⟩) j ht hi).2.2.2.2.1

/-- In a three-phase job list where the first phase is a dependency chain,
the second phase depends on all first-phase ids and the third on all
second-phase ids, every job's dependencies name only strictly earlier
jobs. -/
theorem phase_rank {L1 L2 L3 : List JobDefinition}
    (hchain0 : ∀ j : JobDefinition, L1[0]? = some j → j.dependencies = [])
    (hchain : ∀ (n : Nat) (j j' : JobDefinition), L1[n]? = some j →
      L1[n + 1]? = some j' → j'.dependencies = [j.id])
    (h2 : ∀ j ∈ L2, j.dependencies = L1.map (fun j2 => j2.id))
    (h3 : ∀ j ∈ L3, j.dependencies = L2.map (fun j2 => j2.id)) :
    ∀ (i : Nat) (j : JobDefinition), (L1 ++ L2 ++ L3)[i]? = some j →
      ∀ x ∈ j.dependencies, x ∈ ((L1 ++ L2 ++ L3).take i).map (fun j2 => j2.id) := by
  intro i j hij x hx
  rw [List.getElem?_append] at hij
  by_cases h12 : i < (L1 ++ L2).length
  · rw [if_pos h12] at hij
    rw [List.getElem?_append] at hij
    by_cases h1 : i < L1.length
    · rw [if_pos h1] at hij
      cases i with
      | zero =>
          rw [hchain0 j hij] at hx
          cases hx
      | succ n =>
          have hn1 : n < L1.length := by omega
          have hprev : L1[n]? = some (L1.get ⟨n, hn1⟩) := List.getElem?_eq_getElem hn1
          rw [hchain n (L1.get ⟨n, hn1⟩) j hprev hij] at hx
          have hxe : x = (L1.get ⟨n, hn1⟩).id := by simpa using hx
          have hj1 : (L1 ++ L2 ++ L3)[n]? = some (L1.get ⟨n, hn1⟩) := by
            rw [List.getElem?_append,
              if_pos (show n < (L1 ++ L2).length by rw [List.length_append]; omega),
              List.getElem?_append, if_pos hn1]
            exact hprev
          exact List.mem_map.mpr
            ⟨L1.get ⟨n, hn1⟩, mem_take_of_getElem hj1 (by omega), hxe.symm⟩
    · rw [if_neg h1] at hij
      have hjm : j ∈ L2 := List.getElem?_mem hij
      rw [h2 j hjm] at hx
      obtain ⟨jc, hjc, hjce⟩ := List.mem_map.mp hx
      obtain ⟨n, hn⟩ := exists_getElem_of_mem hjc
      obtain ⟨hn1, -⟩ := List.getElem?_eq_some.mp hn
      have hj1 : (L1 ++ L2 ++ L3)[n]? = some jc := by
        rw [List.getElem?_append,
          if_pos (show n < (L1 ++ L2).length by rw [List.length_append]; omega),
          List.getElem?_append, if_pos hn1]
        exact hn
      exact List.mem_map.mpr ⟨jc, mem_take_of_getElem hj1 (by omega), hjce⟩
  · rw [if_neg h12] at hij
    have hjt : j ∈ L3 := List.getElem?_mem hij
    rw [h3 j hjt] at hx
    obtain ⟨jm, hjm, hjme⟩ := List.mem_map.mp hx
    obtain ⟨n, hn⟩ := exists_getElem_of_mem hjm
    obtain ⟨hn2, -⟩ := List.getElem?_eq_some.mp hn
    have hj2 : (L1 ++ L2 ++ L3)[L1.length + n]? = some jm := by
      rw [List.getElem?_append,
        if_pos (show L1.length + n < (L1 ++ L2).length by
          rw [List.length_append]; omega),
        List.getElem?_append, if_neg (by omega)]
      have hsub : L1.length + n - L1.length = n := by omega
      rw [hsub]
      exact hn
    have hni : L1.length + n < i := by
      rw [List.length_append] at h12
      omega
    exact List.mem_map.mpr ⟨jm, mem_take_of_getElem hj2 hni, hjme⟩

/-- Claim C8: for every plan produced by `create_plan` (with distinct job
ids, as guaranteed by the uuid suffixes the source appends to each id),
`get_job_order` returns a permutation of the plan's job ids in which
every job id appears only after every id in that job's dependency
list. -/
theorem C8_job_order (nonce : Nat → String) (rid : String) (m : ImplementationModel)
    (hids : ((createPlan nonce rid m).jobs.map (fun j => j.id)).Nodup) :
    (getJobOrder (createPlan nonce rid m).jobs).Perm
      ((createPlan nonce rid m).jobs.map (fun j => j.id)) ∧
    ∀ j ∈ (createPlan nonce rid m).jobs, ∀ (i : Nat),
      (getJobOrder (createPlan nonce rid m).jobs)[i]? = some j.id →
      ∀ x ∈ j.dependencies,
        x ∈ (getJobOrder (createPlan nonce rid m).jobs).take i := by
  have hjobs : (createPlan nonce rid m).jobs =
      planCustJobs nonce m ++ planMigrJobs nonce m ++ planTestJobs nonce m := rfl
  have hids' := hids
  rw [hjobs] at hids'
  simp only [List.map_append] at hids'
  have hsplit := List.nodup_append.mp hids'
  have hsplit2 := List.nodup_append.mp hsplit.1
  have hdep : ∀ j ∈ (createPlan nonce rid m).jobs, j.dependencies.Nodup := by
    intro j hj
    rw [hjobs] at hj
    rcases List.mem_append.mp hj with hj12 | hj3
    · rcases List.mem_append.mp hj12 with hj1 | hj2
      · rcases createCustomizingJobsAux_dep_shape nonce m.customizing.packages
            0 none j hj1 with h | ⟨q, h⟩
        · rw [h]
          exact List.nodup_nil
        · rw [h]
          simp
      · have hj2' : j ∈ createMigrationJobsAux nonce
            ((planCustJobs nonce m).map (fun j2 => j2.id))
            (planCustJobs nonce m).length m.migration.objects := hj2
        rw [createMigrationJobsAux_deps nonce _ _ _ j hj2']
        exact hsplit2.1
    · have hj3' : j ∈ createTestingJobsAux nonce
          ((planMigrJobs nonce m).map (fun j2 => j2.id))
          ((planCustJobs nonce m).length + (planMigrJobs nonce m).length)
          m.testing.suites := hj3
      rw [createTestingJobsAux_deps nonce _ _ _ j hj3']
      exact hsplit2.2.1
  have hrank : ∀ (i : Nat) (j : JobDefinition),
      (createPlan nonce rid m).jobs[i]? = some j →
      ∀ x ∈ j.dependencies,
        x ∈ ((createPlan nonce rid m).jobs.take i).map (fun j2 => j2.id) := by
    rw [hjobs]
    refine phase_rank ?_ ?_ ?_ ?_
    · intro j h
      have h' : (createCustomizingJobsAux nonce 0 none m.customizing.packages)[0]? =
          some j := h
      have hd0 := createCustomizingJobsAux_head_deps nonce m.customizing.packages
        0 none j h'
      simpa using hd0
    · intro n j j' ha hb
      have ha' : (createCustomizingJobsAux nonce 0 none m.customizing.packages)[n]? =
          some j := ha
      have hb' : (createCustomizingJobsAux nonce 0 none
          m.customizing.packages)[n + 1]? = some j' := hb
      exact createCustomizingJobsAux_chain nonce m.customizing.packages 0 none n
        j j' ha' hb'
    · intro j hj
      have hj' : j ∈ createMigrationJobsAux nonce
          ((planCustJobs nonce m).map (fun j2 => j2.id))
          (planCustJobs nonce m).length m.migration.objects := hj
      exact createMigrationJobsAux_deps nonce _ _ _ j hj'
    · intro j hj
      have hj' : j ∈ createTestingJobsAux nonce
          ((planMigrJobs nonce m).map (fun j2 => j2.id))
          ((planCustJobs nonce m).length + (planMigrJobs nonce m).length)
          m.testing.suites := hj
      exact createTestingJobsAux_deps nonce _ _ _ j hj'
  exact getJobOrder_correct (createPlan nonce rid m).jobs hids hdep hrank

theorem C8_job_order_witness :
    (((createPlan (fun k => toString k) "p8" w1model).jobs.map
        (fun j => j.id)).Nodup) ∧
    ((getJobOrder (createPlan (fun k => toString k) "p8" w1model).jobs).Perm
        ((createPlan (fun k => toString k) "p8" w1model).jobs.map (fun j => j.id)) ∧
      ∀ j ∈ (createPlan (fun k => toString k) "p8" w1model).jobs, ∀ (i : Nat),
        (getJobOrder (createPlan (fun k => toString k) "p8" w1model).jobs)[i]? =
          some j.id →
        ∀ x ∈ j.dependencies,
          x ∈ (getJobOrder (createPlan (fun k => toString k) "p8" w1model).jobs).take i) :=
  ⟨by decide, C8_job_order (fun k => toString k) "p8" w1model (by decide)⟩

end SAPFactory
